import Mathlib

/-!
Verification of the `sfv` structured-field-values library.

The data model (`Item`, `BareItem`, `Num`, `InnerList`, `ListEntry`,
`Parameters`, `Dictionary`, `List`) is embedded from `src/lib.rs`.
Rust `String`s and byte buffers are modelled as `List Nat` (byte values);
`i64` is modelled as `Int`; `rust_decimal::Decimal` is modelled as a
fixed-point pair of mantissa and scale (value = mantissa / 10 ^ scale),
matching the spec's prescription of a fixed-point representation.

The parser and serializer modules are declared in `lib.rs` (`mod parser;`,
`mod serializer;`) but their sources are not part of the given tree, so
they are modelled from the specification (sections 4.2 and 4.3) and from
the grammar comments embedded in `lib.rs`.
-/

namespace SFV

/-! ## Character classes (Shared Validation Utilities, spec section 2) -/

def isDigit (c : Nat) : Bool := 48 ≤ c && c ≤ 57

def isLcAlpha (c : Nat) : Bool := 97 ≤ c && c ≤ 122

def isUcAlpha (c : Nat) : Bool := 65 ≤ c && c ≤ 90

def isAlpha (c : Nat) : Bool := isLcAlpha c || isUcAlpha c

/-- OWS: optional horizontal whitespace, space or tab. -/
def isOWS (c : Nat) : Bool := c == 32 || c == 9

def isSP (c : Nat) : Bool := c == 32

/-- HTTP token characters plus the sfv extensions `:` and `/`.
sf-token = ( ALPHA / "*" ) *( tchar / ":" / "/" ) -/
def isTokenChar (c : Nat) : Bool :=
  isAlpha c || isDigit c ||
  c == 33 || c == 35 || c == 36 || c == 37 || c == 38 || c == 39 ||
  c == 42 || c == 43 || c == 45 || c == 46 || c == 94 || c == 95 ||
  c == 96 || c == 124 || c == 126 || c == 58 || c == 47

/-- key = ( lcalpha / "*" ) *( lcalpha / DIGIT / "_" / "-" / "." / "*" ) -/
def isKeyChar (c : Nat) : Bool :=
  isLcAlpha c || isDigit c || c == 95 || c == 45 || c == 46 || c == 42

def isPrintable (c : Nat) : Bool := 32 ≤ c && c ≤ 126

/-! ## Data model (from `src/lib.rs`) -/

/-- Model of `rust_decimal::Decimal`: a fixed-point number
`m / 10 ^ s`. -/
structure Decimal where
  m : Int
  s : Nat
deriving DecidableEq

/-- `Num`: either `Decimal` or `Integer` (from `src/lib.rs`). -/
inductive Num where
  | Decimal (d : Decimal)
  | Integer (i : Int)
deriving DecidableEq

/-- `BareItem` (from `src/lib.rs`). Strings, tokens and byte sequences
are byte lists. -/
inductive BareItem where
  | Number (n : Num)
  | String (s : List Nat)
  | ByteSeq (b : List Nat)
  | Boolean (b : Bool)
  | Token (t : List Nat)
deriving DecidableEq

/-- `From<i64> for BareItem` (from `src/lib.rs`). -/
def BareItem.ofInt (i : Int) : BareItem := .Number (.Integer i)

/-- `From<Decimal> for BareItem` (from `src/lib.rs`). -/
def BareItem.ofDecimal (d : Decimal) : BareItem := .Number (.Decimal d)

/-- A key of a `Dictionary` or of `Parameters` (a Rust `String`). -/
abbrev Key := List Nat

/-- `Parameters`: insertion-ordered map from key to `BareItem`,
modelled as an association list (the `IndexMap` order). -/
abbrev Parameters := List (Key × BareItem)

/-- `Item` (from `src/lib.rs`). -/
structure Item where
  bare_item : BareItem
  params : Parameters
deriving DecidableEq

/-- `Item::new` (from `src/lib.rs`): empty parameters. -/
def Item.new (bare_item : BareItem) : Item := ⟨bare_item, []⟩

/-- `Item::with_params` (from `src/lib.rs`). -/
def Item.with_params (bare_item : BareItem) (params : Parameters) : Item :=
  ⟨bare_item, params⟩

/-- `InnerList` (from `src/lib.rs`). -/
structure InnerList where
  items : List Item
  params : Parameters
deriving DecidableEq

/-- `InnerList::new` (from `src/lib.rs`). -/
def InnerList.new (items : List Item) : InnerList := ⟨items, []⟩

/-- `InnerList::with_params` (from `src/lib.rs`). -/
def InnerList.with_params (items : List Item) (params : Parameters) : InnerList :=
  ⟨items, params⟩

/-- `ListEntry` (from `src/lib.rs`). -/
inductive ListEntry where
  | Item (i : Item)
  | InnerList (il : InnerList)
deriving DecidableEq

/-- `From<Item> for ListEntry` (from `src/lib.rs`). -/
def ListEntry.ofItem (i : SFV.Item) : ListEntry := .Item i

/-- `From<InnerList> for ListEntry` (from `src/lib.rs`). -/
def ListEntry.ofInnerList (il : SFV.InnerList) : ListEntry := .InnerList il

/-- `List` (from `src/lib.rs`): `Vec<ListEntry>`. -/
abbrev SfList := List ListEntry

/-- `Dictionary` (from `src/lib.rs`): `IndexMap<String, ListEntry>`,
modelled as an insertion-ordered association list. -/
abbrev Dictionary := List (Key × ListEntry)

/-- `IndexMap::insert` semantics: if the key is present, replace its
value in place (position unchanged); otherwise append at the end. -/
def mapInsert {α : Type} (m : List (Key × α)) (k : Key) (v : α) : List (Key × α) :=
  if m.any (fun p => p.1 == k) then
    m.map (fun p => if p.1 == k then (k, v) else p)
  else
    m ++ [(k, v)]

def mapContains {α : Type} (m : List (Key × α)) (k : Key) : Bool :=
  m.any (fun p => p.1 == k)

def mapLookup {α : Type} (m : List (Key × α)) (k : Key) : Option α :=
  (m.find? (fun p => p.1 == k)).map (·.2)

/-- `SFVResult<T> = Result<T, &'static str>` (from `src/lib.rs`):
every failure carries only a string message. -/
abbrev SFVResult (T : Type) := Except String T

/-! ## Decimal digit rendering -/

/-- Little-endian base-10 digits of `n`, with explicit fuel (the fuel is
a definitional device only; `n` itself is always enough fuel). -/
def natDigitsAux : Nat → Nat → List Nat
  | 0, _ => []
  | _ + 1, 0 => []
  | fuel + 1, n + 1 => ((n + 1) % 10) :: natDigitsAux fuel ((n + 1) / 10)

/-- Decimal digit characters of `n`, most significant first; empty for 0. -/
def natDec (n : Nat) : List Nat := ((natDigitsAux n n).reverse).map (· + 48)

/-- Decimal digit characters of `n`, rendering 0 as "0". -/
def renderNat (n : Nat) : List Nat := if n = 0 then [48] else natDec n

/-- Numeric value of a most-significant-first digit-character run. -/
def decToNat (l : List Nat) : Nat := l.foldl (fun a c => 10 * a + (c - 48)) 0

/-! ## Base64 (standard alphabet with padding) -/

def b64chr (k : Nat) : Nat :=
  if k < 26 then 65 + k
  else if k < 52 then 97 + (k - 26)
  else if k < 62 then 48 + (k - 52)
  else if k = 62 then 43
  else 47

def b64val (c : Nat) : Option Nat :=
  if 65 ≤ c && c ≤ 90 then some (c - 65)
  else if 97 ≤ c && c ≤ 122 then some (c - 97 + 26)
  else if 48 ≤ c && c ≤ 57 then some (c - 48 + 52)
  else if c == 43 then some 62
  else if c == 47 then some 63
  else none

def b64encode : List Nat → List Nat
  | [] => []
  | [a] => [b64chr (a / 4), b64chr (a % 4 * 16), 61, 61]
  | [a, b] => [b64chr (a / 4), b64chr (a % 4 * 16 + b / 16), b64chr (b % 16 * 4), 61]
  | a :: b :: c :: rest =>
    b64chr (a / 4) :: b64chr (a % 4 * 16 + b / 16) ::
      b64chr (b % 16 * 4 + c / 64) :: b64chr (c % 64) :: b64encode rest

def b64decode : List Nat → Except String (List Nat)
  | [] => .ok []
  | c1 :: c2 :: c3 :: c4 :: rest =>
    match b64val c1, b64val c2 with
    | some v1, some v2 =>
      if c3 == 61 then
        if c4 == 61 && rest.isEmpty then
          if v2 % 16 = 0 then .ok [v1 * 4 + v2 / 16]
          else .error "parse_byteseq: nonzero padding bits"
        else .error "parse_byteseq: unbalanced padding"
      else
        match b64val c3 with
        | some v3 =>
          if c4 == 61 then
            if rest.isEmpty then
              if v3 % 4 = 0 then .ok [v1 * 4 + v2 / 16, v2 % 16 * 16 + v3 / 4]
              else .error "parse_byteseq: nonzero padding bits"
            else .error "parse_byteseq: unbalanced padding"
          else
            match b64val c4 with
            | some v4 =>
              match b64decode rest with
              | .ok bs =>
                .ok ((v1 * 4 + v2 / 16) :: (v2 % 16 * 16 + v3 / 4) :: (v3 % 4 * 64 + v4) :: bs)
              | .error e => .error e
            | none => .error "parse_byteseq: invalid base64 character"
        | none => .error "parse_byteseq: invalid base64 character"
    | _, _ => .error "parse_byteseq: invalid base64 character"
  | _ => .error "parse_byteseq: invalid base64 length"

/-! ## Serializer

Modelled from the spec: `mod serializer` is declared in `lib.rs` but its
source is not in the tree.  Section 4.3 of the specification defines
`serialize_value` for each value-model type, with the canonicalization
rules reproduced here exactly (one space after each member comma, no
space around `;` and `=`, decimal rounding, escaping, digit bounds). -/

/-- Round `m / 10 ^ p10exp`, i.e. divide `m` by `p`, with
round-half-to-even (banker's rounding). `p` must be positive. -/
def halfEvenDiv (m : Int) (p : Nat) : Int :=
  let q := m / (p : Int)
  let r := m % (p : Int)
  if 2 * r < (p : Int) then q
  else if (p : Int) < 2 * r then q + 1
  else if q % 2 = 0 then q else q + 1

/-- Mantissa of `d` rescaled to exactly 3 fractional digits, rounding
with round-half-to-even when the stored precision exceeds 3. -/
def round3 (d : Decimal) : Int :=
  if d.s ≤ 3 then d.m * (10 : Int) ^ (3 - d.s)
  else halfEvenDiv d.m (10 ^ (d.s - 3))

/-- Modelled from the spec: key serialization (section 4.3) — emitted
verbatim if it satisfies the key constraint, fails otherwise. -/
def serializeKey (k : Key) : SFVResult (List Nat) :=
  match k with
  | [] => .error "serialize_key: empty key"
  | c :: cs =>
    if (isLcAlpha c || c == 42) && cs.all isKeyChar then .ok (c :: cs)
    else .error "serialize_key: invalid character"

/-- Modelled from the spec: integer serialization (section 4.3) — fails
if the magnitude exceeds the 15-digit bound. -/
def serializeInteger (n : Int) : SFVResult (List Nat) :=
  if n.natAbs ≤ 999999999999999 then
    .ok ((if n < 0 then [45] else []) ++ renderNat n.natAbs)
  else .error "serialize_integer: integer is out of range"

/-- The fractional digit characters for `f < 1000` understood as three
fractional digits, with trailing zeros dropped but at least one digit. -/
def fracDigits (f : Nat) : List Nat :=
  if f % 100 = 0 then [f / 100 + 48]
  else if f % 10 = 0 then [f / 100 + 48, f / 10 % 10 + 48]
  else [f / 100 + 48, f / 10 % 10 + 48, f % 10 + 48]

/-- Modelled from the spec: decimal serialization (section 4.3) — the
value is first rounded to exactly 3 fractional digits with
round-half-to-even, then rendered with the minimum number of fractional
digits (at least one); fails if the integer part needs more than 12
digits. -/
def serializeDecimal (d : Decimal) : SFVResult (List Nat) :=
  let m3 := round3 d
  if m3.natAbs ≤ 999999999999999 then
    .ok ((if m3 < 0 then [45] else []) ++
      renderNat (m3.natAbs / 1000) ++ 46 :: fracDigits (m3.natAbs % 1000))
  else .error "serialize_decimal: integer component is out of range"

def escapeChar (c : Nat) : List Nat :=
  if c == 34 || c == 92 then [92, c] else [c]

/-- Modelled from the spec: string serialization (section 4.3) — wrap in
double quotes, escaping `"` and `\`; fails on non-printable bytes. -/
def serializeString (s : List Nat) : SFVResult (List Nat) :=
  if s.all isPrintable then
    .ok (34 :: s.foldr (fun c acc => escapeChar c ++ acc) [34])
  else .error "serialize_string: non-ascii character"

/-- Modelled from the spec: token serialization (section 4.3) — emitted
verbatim if it satisfies the token constraint, fails otherwise. -/
def serializeToken (t : List Nat) : SFVResult (List Nat) :=
  match t with
  | [] => .error "serialize_token: empty token"
  | c :: cs =>
    if (isAlpha c || c == 42) && cs.all isTokenChar then .ok (c :: cs)
    else .error "serialize_token: invalid character"

/-- Modelled from the spec: byte-sequence serialization (section 4.3) —
wrapped in colons, standard base64 with padding. -/
def serializeByteSeq (b : List Nat) : SFVResult (List Nat) :=
  .ok (58 :: b64encode b ++ [58])

/-- Modelled from the spec: boolean serialization (section 4.3). -/
def serializeBool (b : Bool) : SFVResult (List Nat) :=
  .ok [63, if b then 49 else 48]

/-- Modelled from the spec: bare-item serialization dispatch. -/
def serializeBareItem : BareItem → SFVResult (List Nat)
  | .Number (.Integer n) => serializeInteger n
  | .Number (.Decimal d) => serializeDecimal d
  | .String s => serializeString s
  | .Token t => serializeToken t
  | .ByteSeq b => serializeByteSeq b
  | .Boolean b => serializeBool b

/-- Modelled from the spec: parameters serialization — each parameter is
`;key` or `;key=value`, with the `=value` omitted for `Boolean(true)`;
no spaces. -/
def serializeParameters : Parameters → SFVResult (List Nat)
  | [] => .ok []
  | (k, v) :: rest => do
    let ks ← serializeKey k
    let vs ← if v = BareItem.Boolean true then pure ([] : List Nat)
      else do
        let bs ← serializeBareItem v
        pure (61 :: bs)
    let rs ← serializeParameters rest
    pure (59 :: ks ++ vs ++ rs)

/-- Modelled from the spec: item serialization — bare item followed by
its parameters. -/
def serializeItem (it : Item) : SFVResult (List Nat) := do
  let bs ← serializeBareItem it.bare_item
  let ps ← serializeParameters it.params
  pure (bs ++ ps)

/-- Modelled from the spec: the items of an inner list joined by exactly
one space. -/
def serializeInnerItems : List Item → SFVResult (List Nat)
  | [] => .ok []
  | [it] => serializeItem it
  | it :: rest => do
    let is ← serializeItem it
    let rs ← serializeInnerItems rest
    pure (is ++ 32 :: rs)

/-- Modelled from the spec: inner-list serialization — parenthesized,
items separated by one space, followed by the inner list's parameters. -/
def serializeInnerList (il : InnerList) : SFVResult (List Nat) := do
  let is ← serializeInnerItems il.items
  let ps ← serializeParameters il.params
  pure (40 :: is ++ 41 :: ps)

/-- Modelled from the spec: a list member is an item or an inner list. -/
def serializeListEntry : ListEntry → SFVResult (List Nat)
  | .Item it => serializeItem it
  | .InnerList il => serializeInnerList il

/-- Modelled from the spec: list serialization — members joined by a
comma and exactly one space. -/
def serializeList : SfList → SFVResult (List Nat)
  | [] => .ok []
  | [e] => serializeListEntry e
  | e :: rest => do
    let es ← serializeListEntry e
    let rs ← serializeList rest
    pure (es ++ 44 :: 32 :: rs)

/-- Modelled from the spec: a dictionary member is `key=value`, with
`=value` omitted when the value is an item whose bare item is
`Boolean(true)` (its parameters are still emitted). -/
def serializeDictMember (k : Key) (e : ListEntry) : SFVResult (List Nat) := do
  let ks ← serializeKey k
  match e with
  | .Item it =>
    if it.bare_item = BareItem.Boolean true then do
      let pss ← serializeParameters it.params
      pure (ks ++ pss)
    else do
      let es ← serializeItem it
      pure (ks ++ 61 :: es)
  | .InnerList il => do
    let es ← serializeInnerList il
    pure (ks ++ 61 :: es)

/-- Modelled from the spec: dictionary serialization — members joined by
a comma and exactly one space. -/
def serializeDictionary : Dictionary → SFVResult (List Nat)
  | [] => .ok []
  | [(k, e)] => serializeDictMember k e
  | (k, e) :: rest => do
    let es ← serializeDictMember k e
    let rs ← serializeDictionary rest
    pure (es ++ 44 :: 32 :: rs)

/-! ## Parser

Modelled from the spec: `mod parser` is declared in `lib.rs` but its
source is not in the tree.  Section 4.2 of the specification defines the
entry points `parse_item`, `parse_list`, `parse_dictionary` and
`parse_more` as a single-pass forward cursor over the byte buffer; the
cursor is modelled by structural consumption of the input list.  The
loops over parameters, inner-list items and top-level members carry a
fuel argument (strictly larger than the remaining input length at every
call, so the out-of-fuel branch is unreachable from the entry points). -/

def skipOWS (l : List Nat) : List Nat := l.dropWhile isOWS

def skipSP (l : List Nat) : List Nat := l.dropWhile isSP

/-- Modelled from the spec: number parsing — optional `-`, digits, and
an optional `.` with 1–3 fractional digits; digit-count bounds are hard
failures (spec section 4.2). -/
def parseNumber (l : List Nat) : SFVResult (Num × List Nat) :=
  let neg := l.head? == some 45
  let l1 := if neg then l.tail else l
  let ds := l1.takeWhile isDigit
  let r1 := l1.dropWhile isDigit
  if ds.isEmpty then .error "parse_number: expected digit"
  else if r1.head? == some 46 then
    if 12 < ds.length then .error "parse_number: too many digits before dot"
    else
      let fs := (r1.tail).takeWhile isDigit
      let r3 := (r1.tail).dropWhile isDigit
      if fs.isEmpty then .error "parse_number: trailing dot"
      else if 3 < fs.length then .error "parse_number: too many digits after dot"
      else
        let mant : Int := (decToNat (ds ++ fs) : Nat)
        .ok (.Decimal ⟨if neg then -mant else mant, fs.length⟩, r3)
  else
    if 15 < ds.length then .error "parse_number: too many digits"
    else
      let v : Int := (decToNat ds : Nat)
      .ok (.Integer (if neg then -v else v), r1)

/-- Modelled from the spec: the characters of a string after the opening
quote — scan until an unescaped quote; `\` must be followed by `"` or
`\`; other non-printable bytes fail (spec section 4.2). -/
def parseStringChars : List Nat → SFVResult (List Nat × List Nat)
  | [] => .error "parse_string: unterminated string"
  | c :: r =>
    if c == 34 then .ok ([], r)
    else if c == 92 then
      match r with
      | [] => .error "parse_string: unterminated escape"
      | c2 :: r2 =>
        if c2 == 34 || c2 == 92 then
          match parseStringChars r2 with
          | .ok (s, r3) => .ok (c2 :: s, r3)
          | .error e => .error e
        else .error "parse_string: invalid escape"
    else if isPrintable c then
      match parseStringChars r with
      | .ok (s, r2) => .ok (c :: s, r2)
      | .error e => .error e
    else .error "parse_string: invalid character"

/-- Modelled from the spec: string parsing — a double quote, the
escaped characters, a closing double quote. -/
def parseString (l : List Nat) : SFVResult (List Nat × List Nat) :=
  if l.head? == some 34 then parseStringChars l.tail
  else .error "parse_string: expected double quote"

/-- Modelled from the spec: token parsing — first byte alpha or `*`,
then a greedy run of token characters. -/
def parseToken (l : List Nat) : SFVResult (List Nat × List Nat) :=
  match l with
  | [] => .error "parse_token: empty input"
  | c :: r =>
    if isAlpha c || c == 42 then
      .ok (c :: r.takeWhile isTokenChar, r.dropWhile isTokenChar)
    else .error "parse_token: invalid leading character"

/-- Modelled from the spec: byte-sequence parsing — delimited by colons,
interior must be valid base64 with padding. -/
def parseByteSeq (l : List Nat) : SFVResult (List Nat × List Nat) :=
  if l.head? == some 58 then
    let content := (l.tail).takeWhile (fun c => !(c == 58))
    let r1 := (l.tail).dropWhile (fun c => !(c == 58))
    if r1.isEmpty then .error "parse_byteseq: unterminated byte sequence"
    else
      match b64decode content with
      | .ok bs => .ok (bs, r1.tail)
      | .error e => .error e
  else .error "parse_byteseq: expected colon"

/-- Modelled from the spec: boolean parsing — `?` followed by exactly
`0` or `1`. -/
def parseBoolean (l : List Nat) : SFVResult (Bool × List Nat) :=
  match l with
  | 63 :: 48 :: r => .ok (false, r)
  | 63 :: 49 :: r => .ok (true, r)
  | _ => .error "parse_boolean: invalid boolean"

/-- Modelled from the spec: bare-item dispatch by first significant byte
— digit or `-` selects number, `"` string, `:` byte sequence, `?`
boolean, alpha or `*` token. -/
def parseBareItem (l : List Nat) : SFVResult (BareItem × List Nat) :=
  match l with
  | [] => .error "parse_bare_item: empty input"
  | c :: _ =>
    if isDigit c || c == 45 then
      match parseNumber l with
      | .ok (n, r) => .ok (.Number n, r)
      | .error e => .error e
    else if c == 34 then
      match parseString l with
      | .ok (s, r) => .ok (.String s, r)
      | .error e => .error e
    else if c == 58 then
      match parseByteSeq l with
      | .ok (b, r) => .ok (.ByteSeq b, r)
      | .error e => .error e
    else if c == 63 then
      match parseBoolean l with
      | .ok (b, r) => .ok (.Boolean b, r)
      | .error e => .error e
    else if isAlpha c || c == 42 then
      match parseToken l with
      | .ok (t, r) => .ok (.Token t, r)
      | .error e => .error e
    else .error "parse_bare_item: unrecognized character"

/-- Modelled from the spec: key parsing — first byte lowercase alpha or
`*`, then a greedy run of key characters. -/
def parseKey (l : List Nat) : SFVResult (Key × List Nat) :=
  match l with
  | [] => .error "parse_key: empty input"
  | c :: r =>
    if isLcAlpha c || c == 42 then
      .ok (c :: r.takeWhile isKeyChar, r.dropWhile isKeyChar)
    else .error "parse_key: invalid leading character"

/-- Modelled from the spec: parameters — zero or more `;`, each with
optional spaces after it, a key, and an optional `=bare-item` (absence
meaning `Boolean(true)`); a repeated key updates the existing slot in
place. -/
def parseParameters : Nat → Parameters → List Nat → SFVResult (Parameters × List Nat)
  | 0, _, _ => .error "parse_parameters: out of fuel"
  | fuel + 1, acc, l =>
    if l.head? == some 59 then
      let r1 := skipSP l.tail
      match parseKey r1 with
      | .error e => .error e
      | .ok (k, r2) =>
        if r2.head? == some 61 then
          match parseBareItem r2.tail with
          | .error e => .error e
          | .ok (v, r4) => parseParameters fuel (mapInsert acc k v) r4
        else parseParameters fuel (mapInsert acc k (.Boolean true)) r2
    else .ok (acc, l)

/-- Modelled from the spec: an item is a bare item followed by its
parameters. -/
def parseItemBody (fuel : Nat) (l : List Nat) : SFVResult (Item × List Nat) :=
  match parseBareItem l with
  | .error e => .error e
  | .ok (b, r) =>
    match parseParameters fuel [] r with
    | .error e => .error e
    | .ok (ps, r2) => .ok (Item.with_params b ps, r2)

/-- Modelled from the spec: the items of an inner list after the opening
parenthesis — optional spaces, then items separated by one or more
spaces, closed by `)`. -/
def parseInnerItems : Nat → List Item → List Nat → SFVResult (List Item × List Nat)
  | 0, _, _ => .error "parse_inner_list: out of fuel"
  | fuel + 1, acc, l =>
    let l1 := skipSP l
    if l1.head? == some 41 then .ok (acc.reverse, l1.tail)
    else if l1.isEmpty then .error "parse_inner_list: unterminated inner list"
    else
      match parseItemBody fuel l1 with
      | .error e => .error e
      | .ok (it, r2) =>
        if r2.head? == some 32 || r2.head? == some 41 then
          parseInnerItems fuel (it :: acc) r2
        else .error "parse_inner_list: expected space or closing parenthesis"

/-- Modelled from the spec: an inner list is `(` items `)` followed by
its own parameters. -/
def parseInnerList (fuel : Nat) (l : List Nat) : SFVResult (InnerList × List Nat) :=
  if l.head? == some 40 then
    match parseInnerItems fuel [] l.tail with
    | .error e => .error e
    | .ok (its, r2) =>
      match parseParameters fuel [] r2 with
      | .error e => .error e
      | .ok (ps, r3) => .ok (InnerList.with_params its ps, r3)
  else .error "parse_inner_list: expected opening parenthesis"

/-- Modelled from the spec: a list member is an inner list when the
first byte is `(`, otherwise an item. -/
def parseListEntry (fuel : Nat) (l : List Nat) : SFVResult (ListEntry × List Nat) :=
  if l.head? == some 40 then
    match parseInnerList fuel l with
    | .error e => .error e
    | .ok (il, r) => .ok (.InnerList il, r)
  else
    match parseItemBody fuel l with
    | .error e => .error e
    | .ok (it, r) => .ok (.Item it, r)

/-- Modelled from the spec: list members separated by OWS `,` OWS; a
trailing comma with no following member fails; expects a member at the
head of `l`. -/
def parseListMembers : Nat → SfList → List Nat → SFVResult SfList
  | 0, _, _ => .error "parse_list: out of fuel"
  | fuel + 1, acc, l =>
    match parseListEntry fuel l with
    | .error e => .error e
    | .ok (e, r) =>
      let r1 := skipOWS r
      if r1.isEmpty then .ok (acc ++ [e])
      else if r1.head? == some 44 then
        let r3 := skipOWS r1.tail
        if r3.isEmpty then .error "parse_list: trailing comma"
        else parseListMembers fuel (acc ++ [e]) r3
      else .error "parse_list: trailing characters after member"

/-- Modelled from the spec: a dictionary member is a key with either
`=` and a member value (item or inner list), or no `=`, meaning
`Boolean(true)` with the member's parameters. -/
def parseDictMember (fuel : Nat) (l : List Nat) : SFVResult ((Key × ListEntry) × List Nat) :=
  match parseKey l with
  | .error e => .error e
  | .ok (k, r) =>
    if r.head? == some 61 then
      match parseListEntry fuel r.tail with
      | .error e => .error e
      | .ok (e, r3) => .ok ((k, e), r3)
    else
      match parseParameters fuel [] r with
      | .error e => .error e
      | .ok (ps, r2) => .ok ((k, .Item (Item.with_params (.Boolean true) ps)), r2)

/-- Modelled from the spec: dictionary members separated by OWS `,` OWS;
a repeated member name updates the existing entry in place; a trailing
comma fails; expects a member at the head of `l`. -/
def parseDictMembers : Nat → Dictionary → List Nat → SFVResult Dictionary
  | 0, _, _ => .error "parse_dictionary: out of fuel"
  | fuel + 1, acc, l =>
    match parseDictMember fuel l with
    | .error e => .error e
    | .ok ((k, e), r) =>
      let r1 := skipOWS r
      if r1.isEmpty then .ok (mapInsert acc k e)
      else if r1.head? == some 44 then
        let r3 := skipOWS r1.tail
        if r3.isEmpty then .error "parse_dictionary: trailing comma"
        else parseDictMembers fuel (mapInsert acc k e) r3
      else .error "parse_dictionary: trailing characters after member"

/-- Modelled from the spec: `parse_item` — optional leading and trailing
whitespace around exactly one item; the entire input must be consumed. -/
def Parser.parse_item (bytes : List Nat) : SFVResult Item :=
  let l := skipOWS bytes
  match parseItemBody (l.length + 1) l with
  | .error e => .error e
  | .ok (it, r) =>
    if (skipOWS r).isEmpty then .ok it
    else .error "parse_item: trailing characters after item"

/-- Modelled from the spec: `parse_list` — an empty or all-whitespace
input yields an empty list; otherwise comma-separated members consuming
the entire input. -/
def Parser.parse_list (bytes : List Nat) : SFVResult SfList :=
  let l := skipOWS bytes
  if l.isEmpty then .ok []
  else parseListMembers (l.length + 1) [] l

/-- Modelled from the spec: `parse_dictionary` — an empty or
all-whitespace input yields an empty dictionary; otherwise
comma-separated `key[=value]` members consuming the entire input. -/
def Parser.parse_dictionary (bytes : List Nat) : SFVResult Dictionary :=
  let l := skipOWS bytes
  if l.isEmpty then .ok []
  else parseDictMembers (l.length + 1) [] l

/-- Modelled from the spec: `parse_more` for `List` — parses the chunk
as a list and appends the members to the existing list; on failure the
existing list is returned unchanged inside the error-free world (the
caller keeps its collection untouched). -/
def ParseMore.list (existing : SfList) (bytes : List Nat) : SFVResult SfList :=
  match Parser.parse_list bytes with
  | .error e => .error e
  | .ok l2 => .ok (existing ++ l2)

/-- Modelled from the spec: `parse_more` for `Dictionary` — parses the
chunk as a dictionary and inserts each member into the existing
dictionary with update-in-place semantics. -/
def ParseMore.dictionary (existing : Dictionary) (bytes : List Nat) : SFVResult Dictionary :=
  match Parser.parse_dictionary bytes with
  | .error e => .error e
  | .ok d2 => .ok (d2.foldl (fun acc p => mapInsert acc p.1 p.2) existing)

/-! ## Grammar validity (spec section 3, the value-model invariants) -/

def validKeyB : Key → Bool
  | [] => false
  | c :: cs => (isLcAlpha c || c == 42) && cs.all isKeyChar

def validTokenB : List Nat → Bool
  | [] => false
  | c :: cs => (isAlpha c || c == 42) && cs.all isTokenChar

def validStringB (s : List Nat) : Bool := s.all isPrintable

def validByteSeqB (b : List Nat) : Bool := b.all (· < 256)

def validIntB (n : Int) : Bool := n.natAbs ≤ 999999999999999

/-- A decimal is in canonical range when rounding to three fractional
digits does not change its value and the rounded mantissa stays within
twelve integer digits. -/
def validDecimalB (d : Decimal) : Bool :=
  d.m * 1000 == round3 d * (10 : Int) ^ d.s && (round3 d).natAbs ≤ 999999999999999

def validBareB : BareItem → Bool
  | .Number (.Integer n) => validIntB n
  | .Number (.Decimal d) => validDecimalB d
  | .String s => validStringB s
  | .Token t => validTokenB t
  | .ByteSeq b => validByteSeqB b
  | .Boolean _ => true

def keysNodupB {α : Type} : List (Key × α) → Bool
  | [] => true
  | (k, _) :: r => r.all (fun p => !(p.1 == k)) && keysNodupB r

def validParamsB (ps : Parameters) : Bool :=
  keysNodupB ps && ps.all (fun p => validKeyB p.1 && validBareB p.2)

def validItemB (it : Item) : Bool :=
  validBareB it.bare_item && validParamsB it.params

def validInnerListB (il : InnerList) : Bool :=
  il.items.all validItemB && validParamsB il.params

def validEntryB : ListEntry → Bool
  | .Item it => validItemB it
  | .InnerList il => validInnerListB il

def validListB (l : SfList) : Bool := l.all validEntryB

def validDictB (d : Dictionary) : Bool :=
  keysNodupB d && d.all (fun p => validKeyB p.1 && validEntryB p.2)

/-! ## Canonicalization (the value produced by re-parsing a serialization) -/

/-- The decimal value produced by parsing the canonical rendering of
`d`: rounded to three fractional digits, trailing zeros stripped, at
least one fractional digit. -/
def canonDecimal (d : Decimal) : Decimal :=
  let m3 := round3 d
  if m3 % 100 = 0 then ⟨m3 / 100, 1⟩
  else if m3 % 10 = 0 then ⟨m3 / 10, 2⟩
  else ⟨m3, 3⟩

def canonBare : BareItem → BareItem
  | .Number (.Decimal d) => .Number (.Decimal (canonDecimal d))
  | b => b

def canonParams (ps : Parameters) : Parameters :=
  ps.map (fun p => (p.1, canonBare p.2))

def canonItem (it : Item) : Item :=
  ⟨canonBare it.bare_item, canonParams it.params⟩

def canonInnerList (il : InnerList) : InnerList :=
  ⟨il.items.map canonItem, canonParams il.params⟩

def canonEntry : ListEntry → ListEntry
  | .Item it => .Item (canonItem it)
  | .InnerList il => .InnerList (canonInnerList il)

def canonList (l : SfList) : SfList := l.map canonEntry

def canonDict (d : Dictionary) : Dictionary :=
  d.map (fun p => (p.1, canonEntry p.2))

/-! ## Equality as Rust `==` sees it

Derived `PartialEq` is structural except at `rust_decimal::Decimal`,
whose `PartialEq` compares numeric values, and at `IndexMap`, whose
`PartialEq` ignores insertion order. -/

def beqDecimal (a b : Decimal) : Bool :=
  a.m * (10 : Int) ^ b.s == b.m * (10 : Int) ^ a.s

def beqNum : Num → Num → Bool
  | .Integer a, .Integer b => a == b
  | .Decimal a, .Decimal b => beqDecimal a b
  | _, _ => false

def beqBare : BareItem → BareItem → Bool
  | .Number a, .Number b => beqNum a b
  | .String a, .String b => a == b
  | .ByteSeq a, .ByteSeq b => a == b
  | .Boolean a, .Boolean b => a == b
  | .Token a, .Token b => a == b
  | _, _ => false

def beqParams (p q : Parameters) : Bool :=
  p.length == q.length &&
    p.all (fun kv => match mapLookup q kv.1 with
      | some w => beqBare kv.2 w
      | none => false)

def beqItem (a b : Item) : Bool :=
  beqBare a.bare_item b.bare_item && beqParams a.params b.params

def beqItems : List Item → List Item → Bool
  | [], [] => true
  | a :: as1, b :: bs1 => beqItem a b && beqItems as1 bs1
  | _, _ => false

def beqInnerList (a b : InnerList) : Bool :=
  beqItems a.items b.items && beqParams a.params b.params

def beqEntry : ListEntry → ListEntry → Bool
  | .Item a, .Item b => beqItem a b
  | .InnerList a, .InnerList b => beqInnerList a b
  | _, _ => false

def beqList : SfList → SfList → Bool
  | [], [] => true
  | a :: as1, b :: bs1 => beqEntry a b && beqList as1 bs1
  | _, _ => false

def beqDict (d e : Dictionary) : Bool :=
  d.length == e.length &&
    d.all (fun kv => match mapLookup e kv.1 with
      | some w => beqEntry kv.2 w
      | none => false)

/-- Byte values of an ASCII string literal, used to state concrete
examples readably. -/
def strBytes (s : String) : List Nat := s.toList.map Char.toNat

/-- The head of `l` fails `p` (or `l` is empty): the condition under
which a greedy scan stops exactly at the start of `l`. -/
def headNot (p : Nat → Bool) : List Nat → Bool
  | [] => true
  | c :: _ => !(p c)

/-- What may follow a serialized list or dictionary member, an inner
list item, or a parameter run: a comma, a space, a closing parenthesis,
or the end of input. -/
def entryBnd : List Nat → Bool
  | [] => true
  | c :: _ => c == 44 || c == 32 || c == 41

/-- What may follow a serialized bare item: a parameter semicolon or an
entry boundary. -/
def bareBnd : List Nat → Bool
  | [] => true
  | c :: _ => c == 59 || c == 44 || c == 32 || c == 41

/-- What may follow a serialized key: an equals sign, a parameter
semicolon, or an entry boundary. -/
def keyBnd : List Nat → Bool
  | [] => true
  | c :: _ => c == 61 || c == 59 || c == 44 || c == 32 || c == 41

/-- The keys of `ps` are all absent from `acc`: the condition under
which parsing appends parsed members to an accumulator in order. -/
def mapDisjoint {α β : Type} (acc : List (Key × α)) (ps : List (Key × β)) : Bool :=
  ps.all (fun p => !(mapContains acc p.1))

/-- First bytes a serialized bare item can start with. -/
def bareStartB (c : Nat) : Bool :=
  isDigit c || c == 45 || c == 34 || c == 58 || c == 63 || isAlpha c || c == 42

/-! ## Supporting lemmas -/

theorem takeWhile_all_append (p : Nat → Bool) (a b : List Nat)
    (ha : ∀ c ∈ a, p c = true) (hb : headNot p b = true) :
    (a ++ b).takeWhile p = a ∧ (a ++ b).dropWhile p = b := by
  induction a with
  | nil =>
    simp only [List.nil_append]
    cases b with
    | nil => simp
    | cons c t =>
      simp only [headNot, Bool.not_eq_true'] at hb
      simp [List.takeWhile_cons, List.dropWhile_cons, hb]
  | cons c t ih =>
    have hc : p c = true := ha c (by simp)
    have iht := ih (fun x hx => ha x (by simp [hx]))
    simp [List.takeWhile_cons, List.dropWhile_cons, hc, iht.1, iht.2]

theorem skipSP_noop (l : List Nat) (h : headNot isSP l = true) : skipSP l = l := by
  cases l with
  | nil => rfl
  | cons c t =>
    simp only [headNot, Bool.not_eq_true'] at h
    simp [skipSP, List.dropWhile_cons, h]

theorem skipOWS_noop (l : List Nat) (h : headNot isOWS l = true) : skipOWS l = l := by
  cases l with
  | nil => rfl
  | cons c t =>
    simp only [headNot, Bool.not_eq_true'] at h
    simp [skipOWS, List.dropWhile_cons, h]

theorem natDigitsAux_eq (fuel : Nat) : ∀ n : Nat, n ≤ fuel →
    natDigitsAux fuel n = Nat.digits 10 n := by
  induction fuel with
  | zero =>
    intro n hn
    interval_cases n
    simp [natDigitsAux]
  | succ fuel ih =>
    intro n hn
    cases n with
    | zero => simp [natDigitsAux]
    | succ m =>
      have hdiv : (m + 1) / 10 < m + 1 := Nat.div_lt_self (Nat.succ_pos m) (by norm_num)
      rw [natDigitsAux, ih ((m + 1) / 10) (by omega),
        Nat.digits_def' (b := 10) (by norm_num) (Nat.succ_pos m)]

theorem natDec_eq (n : Nat) : natDec n = ((Nat.digits 10 n).reverse).map (· + 48) := by
  rw [natDec, natDigitsAux_eq n n le_rfl]

theorem natDec_all_digit (n : Nat) : ∀ c ∈ natDec n, isDigit c = true := by
  rw [natDec_eq]
  intro c hc
  simp only [List.mem_map, List.mem_reverse] at hc
  obtain ⟨d, hd, rfl⟩ := hc
  have := Nat.digits_lt_base (by norm_num) hd
  simp only [isDigit, Bool.and_eq_true, decide_eq_true_eq]
  omega

theorem renderNat_all_digit (n : Nat) : ∀ c ∈ renderNat n, isDigit c = true := by
  rw [renderNat]
  split
  · intro c hc
    simp only [List.mem_singleton] at hc
    subst hc
    rfl
  · exact natDec_all_digit n

theorem natDec_ne_nil (n : Nat) (h : n ≠ 0) : natDec n ≠ [] := by
  rw [natDec_eq]
  simp [Nat.digits_ne_nil_iff_ne_zero, h]

theorem renderNat_ne_nil (n : Nat) : renderNat n ≠ [] := by
  rw [renderNat]
  split
  · simp
  · exact natDec_ne_nil n (by assumption)

theorem renderNat_length_le (n k : Nat) (hk : 0 < k) (h : n < 10 ^ k) :
    (renderNat n).length ≤ k := by
  rw [renderNat]
  split
  · simpa using hk
  · rename_i hn
    rw [natDec_eq]
    simp only [List.length_map, List.length_reverse]
    rw [Nat.digits_len 10 n (by norm_num) hn]
    have := (Nat.lt_pow_iff_log_lt (b := 10) (by norm_num) hn).mp h
    omega

theorem decFold_acc (b : List Nat) : ∀ acc : Nat,
    b.foldl (fun a c => 10 * a + (c - 48)) acc = acc * 10 ^ b.length + decToNat b := by
  induction b with
  | nil => intro acc; simp [decToNat]
  | cons c t ih =>
    intro acc
    have hct : decToNat (c :: t) = (10 * 0 + (c - 48)) * 10 ^ t.length + decToNat t := by
      rw [decToNat, List.foldl_cons, ih]
    rw [List.foldl_cons, ih, hct, List.length_cons]
    ring

theorem decToNat_append (a b : List Nat) :
    decToNat (a ++ b) = decToNat a * 10 ^ b.length + decToNat b := by
  rw [decToNat, List.foldl_append, ← decToNat, decFold_acc]

theorem decToNat_map48 (L : List Nat) : ∀ acc : Nat,
    (L.map (· + 48)).foldl (fun a c => 10 * a + (c - 48)) acc =
      L.foldl (fun a d => 10 * a + d) acc := by
  induction L with
  | nil => intro acc; rfl
  | cons d t ih =>
    intro acc
    simp only [List.map_cons, List.foldl_cons, Nat.add_sub_cancel]
    exact ih _

theorem msd_reverse_digits : ∀ n : Nat,
    ((Nat.digits 10 n).reverse).foldl (fun a d => 10 * a + d) 0 = n := by
  intro n
  induction n using Nat.strong_induction_on with
  | _ n ih =>
    cases n with
    | zero => simp
    | succ m =>
      rw [Nat.digits_def' (b := 10) (by norm_num) (Nat.succ_pos m), List.reverse_cons,
        List.foldl_append,
        ih ((m + 1) / 10) (Nat.div_lt_self (Nat.succ_pos m) (by norm_num))]
      simp only [List.foldl_cons, List.foldl_nil]
      omega

theorem decToNat_natDec (n : Nat) : decToNat (natDec n) = n := by
  rw [natDec_eq, decToNat, decToNat_map48, msd_reverse_digits]

theorem decToNat_renderNat (n : Nat) : decToNat (renderNat n) = n := by
  rw [renderNat]
  split
  · rename_i h
    subst h
    rfl
  · exact decToNat_natDec n

theorem skipOWS_eq_nil_iff (l : List Nat) : skipOWS l = [] ↔ l.all isOWS = true := by
  simp [skipOWS, List.dropWhile_eq_nil_iff, List.all_eq_true]

theorem bareBnd_elim (l : List Nat) (h : bareBnd l = true) :
    l = [] ∨ ∃ c t, l = c :: t ∧ (c = 59 ∨ c = 44 ∨ c = 32 ∨ c = 41) := by
  cases l with
  | nil => exact Or.inl rfl
  | cons c t =>
    right
    refine ⟨c, t, rfl, ?_⟩
    have h2 := h
    simp only [bareBnd, Bool.or_eq_true, beq_iff_eq] at h2
    tauto

theorem keyBnd_elim (l : List Nat) (h : keyBnd l = true) :
    l = [] ∨ ∃ c t, l = c :: t ∧ (c = 61 ∨ c = 59 ∨ c = 44 ∨ c = 32 ∨ c = 41) := by
  cases l with
  | nil => exact Or.inl rfl
  | cons c t =>
    right
    refine ⟨c, t, rfl, ?_⟩
    have h2 := h
    simp only [keyBnd, Bool.or_eq_true, beq_iff_eq] at h2
    tauto

theorem entryBnd_elim (l : List Nat) (h : entryBnd l = true) :
    l = [] ∨ ∃ c t, l = c :: t ∧ (c = 44 ∨ c = 32 ∨ c = 41) := by
  cases l with
  | nil => exact Or.inl rfl
  | cons c t =>
    right
    refine ⟨c, t, rfl, ?_⟩
    have h2 := h
    simp only [entryBnd, Bool.or_eq_true, beq_iff_eq] at h2
    tauto

theorem entryBnd_to_bare (l : List Nat) (h : entryBnd l = true) : bareBnd l = true := by
  rcases entryBnd_elim l h with rfl | ⟨c, t, rfl, hc⟩
  · rfl
  · rcases hc with rfl | rfl | rfl <;> rfl

theorem entryBnd_to_key (l : List Nat) (h : entryBnd l = true) : keyBnd l = true := by
  rcases entryBnd_elim l h with rfl | ⟨c, t, rfl, hc⟩
  · rfl
  · rcases hc with rfl | rfl | rfl <;> rfl

theorem entryBnd_not59 (l : List Nat) (h : entryBnd l = true) :
    (l.head? == some 59) = false := by
  rcases entryBnd_elim l h with rfl | ⟨c, t, rfl, hc⟩
  · rfl
  · rcases hc with rfl | rfl | rfl <;> rfl

theorem entryBnd_not61 (l : List Nat) (h : entryBnd l = true) :
    (l.head? == some 61) = false := by
  rcases entryBnd_elim l h with rfl | ⟨c, t, rfl, hc⟩
  · rfl
  · rcases hc with rfl | rfl | rfl <;> rfl

theorem bareBnd_not_digit (l : List Nat) (h : bareBnd l = true) :
    headNot isDigit l = true := by
  rcases bareBnd_elim l h with rfl | ⟨c, t, rfl, hc⟩
  · rfl
  · rcases hc with rfl | rfl | rfl | rfl <;> rfl

theorem bareBnd_not46 (l : List Nat) (h : bareBnd l = true) :
    (l.head? == some 46) = false := by
  rcases bareBnd_elim l h with rfl | ⟨c, t, rfl, hc⟩
  · rfl
  · rcases hc with rfl | rfl | rfl | rfl <;> rfl

theorem bareBnd_not_token (l : List Nat) (h : bareBnd l = true) :
    headNot isTokenChar l = true := by
  rcases bareBnd_elim l h with rfl | ⟨c, t, rfl, hc⟩
  · rfl
  · rcases hc with rfl | rfl | rfl | rfl <;> rfl

theorem keyBnd_not_keychar (l : List Nat) (h : keyBnd l = true) :
    headNot isKeyChar l = true := by
  rcases keyBnd_elim l h with rfl | ⟨c, t, rfl, hc⟩
  · rfl
  · rcases hc with rfl | rfl | rfl | rfl | rfl <;> rfl

theorem bareStart_ne40 (c : Nat) (h : bareStartB c = true) : (c == 40) = false := by
  simp only [bareStartB, isDigit, isAlpha, isLcAlpha, isUcAlpha, Bool.or_eq_true,
    Bool.and_eq_true, decide_eq_true_eq, beq_iff_eq] at h
  simp only [beq_eq_false_iff_ne, ne_eq]
  omega

theorem bareStart_not_ows (c : Nat) (h : bareStartB c = true) : isOWS c = false := by
  simp only [bareStartB, isDigit, isAlpha, isLcAlpha, isUcAlpha, Bool.or_eq_true,
    Bool.and_eq_true, decide_eq_true_eq, beq_iff_eq] at h
  simp only [isOWS, Bool.or_eq_false_iff, beq_eq_false_iff_ne, ne_eq]
  omega

theorem bareStart_not_sp (c : Nat) (h : bareStartB c = true) : isSP c = false := by
  simp only [bareStartB, isDigit, isAlpha, isLcAlpha, isUcAlpha, Bool.or_eq_true,
    Bool.and_eq_true, decide_eq_true_eq, beq_iff_eq] at h
  simp only [isSP, beq_eq_false_iff_ne, ne_eq]
  omega

theorem some_beq_some (a b : Nat) : ((some a : Option Nat) == some b) = (a == b) := rfl

theorem parseNumber_integer (n : Int) (hb : n.natAbs ≤ 999999999999999)
    (rest : List Nat) (hr : bareBnd rest = true) :
    parseNumber ((if n < 0 then 45 :: renderNat n.natAbs else renderNat n.natAbs) ++ rest) =
      .ok (.Integer n, rest) := by
  obtain ⟨c, cs, hA⟩ : ∃ c cs, renderNat n.natAbs = c :: cs := by
    cases hA : renderNat n.natAbs with
    | nil => exact absurd hA (renderNat_ne_nil _)
    | cons c cs => exact ⟨c, cs, rfl⟩
  have hcd : isDigit c = true := renderNat_all_digit _ c (by rw [hA]; simp)
  have hsplit := takeWhile_all_append isDigit (renderNat n.natAbs) rest
    (renderNat_all_digit _) (bareBnd_not_digit rest hr)
  have hlen : ¬ 15 < (renderNat n.natAbs).length := by
    have := renderNat_length_le n.natAbs 15 (by norm_num) (by omega)
    omega
  have hr46 := bareBnd_not46 rest hr
  have hdec := decToNat_renderNat n.natAbs
  have h45 : (c == 45) = false := by
    simp only [beq_eq_false_iff_ne, ne_eq]
    intro hEq
    rw [hEq] at hcd
    exact absurd hcd (by decide)
  rw [hA] at hsplit
  simp only [List.cons_append] at hsplit
  have hdc : decToNat (c :: cs) = n.natAbs := by rw [← hA, hdec]
  have hl15 : ¬ 15 < (c :: cs).length := by rw [← hA]; exact hlen
  simp only [List.length_cons] at hl15
  by_cases hneg : n < 0
  · have hval : -((n.natAbs : Nat) : Int) = n := by omega
    rw [if_pos hneg, hA]
    simp only [List.cons_append]
    simp [parseNumber, hsplit.1, hsplit.2, hr46, h45, hdc, hval]
    rw [if_neg (by omega)]
    simp only [Int.abs_eq_natAbs, hval]
  · have hval : ((n.natAbs : Nat) : Int) = n := by omega
    rw [if_neg hneg, hA]
    simp only [List.cons_append]
    simp [parseNumber, hsplit.1, hsplit.2, hr46, h45, hdc, hval]
    omega

theorem fracDigits_all_digit (f : Nat) (hf : f < 1000) :
    ∀ c ∈ fracDigits f, isDigit c = true := by
  unfold fracDigits
  split
  · intro c hc
    simp only [List.mem_singleton] at hc
    subst hc
    simp only [isDigit, Bool.and_eq_true, decide_eq_true_eq]
    omega
  · split
    · intro c hc
      simp only [List.mem_cons, List.not_mem_nil, or_false] at hc
      rcases hc with rfl | rfl <;>
        (simp only [isDigit, Bool.and_eq_true, decide_eq_true_eq]; omega)
    · intro c hc
      simp only [List.mem_cons, List.not_mem_nil, or_false] at hc
      rcases hc with rfl | rfl | rfl <;>
        (simp only [isDigit, Bool.and_eq_true, decide_eq_true_eq]; omega)

theorem fracDigits_ne_nil (f : Nat) : fracDigits f ≠ [] := by
  unfold fracDigits
  split
  · simp
  · split <;> simp

theorem fracDigits_len_le (f : Nat) : (fracDigits f).length ≤ 3 := by
  unfold fracDigits
  split
  · simp
  · split <;> simp

theorem parseNumber_decimal (d : Decimal) (hm3 : (round3 d).natAbs ≤ 999999999999999)
    (rest : List Nat) (hr : bareBnd rest = true) :
    parseNumber (((if round3 d < 0 then [45] else []) ++
        renderNat ((round3 d).natAbs / 1000) ++
        46 :: fracDigits ((round3 d).natAbs % 1000)) ++ rest) =
      .ok (.Decimal (canonDecimal d), rest) := by
  have hfb : (round3 d).natAbs % 1000 < 1000 := Nat.mod_lt _ (by norm_num)
  obtain ⟨c, cs, hA⟩ :
      ∃ c cs, renderNat ((round3 d).natAbs / 1000) = c :: cs := by
    cases hA : renderNat ((round3 d).natAbs / 1000) with
    | nil => exact absurd hA (renderNat_ne_nil _)
    | cons c cs => exact ⟨c, cs, rfl⟩
  have hcd : isDigit c = true := renderNat_all_digit _ c (by rw [hA]; simp)
  have h45 : (c == 45) = false := by
    simp only [beq_eq_false_iff_ne, ne_eq]
    intro hEq
    rw [hEq] at hcd
    exact absurd hcd (by decide)
  have hsplitInt := takeWhile_all_append isDigit (renderNat ((round3 d).natAbs / 1000))
    (46 :: (fracDigits ((round3 d).natAbs % 1000) ++ rest))
    (renderNat_all_digit _) (by rfl)
  rw [hA] at hsplitInt
  simp only [List.cons_append] at hsplitInt
  have hsplitFrac := takeWhile_all_append isDigit (fracDigits ((round3 d).natAbs % 1000))
    rest (fracDigits_all_digit _ hfb) (bareBnd_not_digit rest hr)
  have hl12 : ¬ 12 < (c :: cs).length := by
    rw [← hA]
    have : (round3 d).natAbs / 1000 < 10 ^ 12 := by omega
    have := renderNat_length_le ((round3 d).natAbs / 1000) 12 (by norm_num) this
    omega
  have hfne : (fracDigits ((round3 d).natAbs % 1000)).isEmpty = false := by
    cases hE : fracDigits ((round3 d).natAbs % 1000) with
    | nil => exact absurd hE (fracDigits_ne_nil _)
    | cons x xs => rfl
  have hfl3 : ¬ 3 < (fracDigits ((round3 d).natAbs % 1000)).length :=
    by have := fracDigits_len_le ((round3 d).natAbs % 1000); omega
  have hdec : decToNat (c :: cs ++ fracDigits ((round3 d).natAbs % 1000)) =
      ((round3 d).natAbs / 1000) * 10 ^ (fracDigits ((round3 d).natAbs % 1000)).length +
        decToNat (fracDigits ((round3 d).natAbs % 1000)) := by
    rw [← hA, decToNat_append, decToNat_renderNat]
  have hfinalNeg : round3 d < 0 →
      (Num.Decimal ⟨-((((round3 d).natAbs / 1000) * 10 ^ (fracDigits ((round3 d).natAbs % 1000)).length +
            decToNat (fracDigits ((round3 d).natAbs % 1000)) : Nat) : Int),
        (fracDigits ((round3 d).natAbs % 1000)).length⟩) =
      Num.Decimal (canonDecimal d) := by
    intro hlt
    by_cases hc100 : (round3 d).natAbs % 1000 % 100 = 0
    · have hfd : fracDigits ((round3 d).natAbs % 1000) =
          [(round3 d).natAbs % 1000 / 100 + 48] := by
        simp [fracDigits, hc100]
      have hi100 : round3 d % 100 = 0 := by omega
      rw [hfd]
      simp only [canonDecimal]
      rw [if_pos hi100]
      simp only [decToNat, List.foldl_cons, List.foldl_nil, List.length_singleton, pow_one]
      norm_num
      simp only [Int.abs_eq_natAbs]
      omega
    · by_cases hc10 : (round3 d).natAbs % 1000 % 10 = 0
      · have hfd : fracDigits ((round3 d).natAbs % 1000) =
            [(round3 d).natAbs % 1000 / 100 + 48, (round3 d).natAbs % 1000 / 10 % 10 + 48] := by
          simp [fracDigits, hc100, hc10]
        have hi100 : ¬ round3 d % 100 = 0 := by omega
        have hi10 : round3 d % 10 = 0 := by omega
        rw [hfd]
        simp only [canonDecimal]
        rw [if_neg hi100, if_pos hi10]
        simp only [decToNat, List.foldl_cons, List.foldl_nil, List.length_cons,
          List.length_singleton, List.length_nil]
        norm_num
        simp only [Int.abs_eq_natAbs]
        omega
      · have hfd : fracDigits ((round3 d).natAbs % 1000) =
            [(round3 d).natAbs % 1000 / 100 + 48, (round3 d).natAbs % 1000 / 10 % 10 + 48,
              (round3 d).natAbs % 1000 % 10 + 48] := by
          simp [fracDigits, hc100, hc10]
        have hi100 : ¬ round3 d % 100 = 0 := by omega
        have hi10 : ¬ round3 d % 10 = 0 := by omega
        rw [hfd]
        simp only [canonDecimal]
        rw [if_neg hi100, if_neg hi10]
        simp only [decToNat, List.foldl_cons, List.foldl_nil, List.length_cons,
          List.length_singleton, List.length_nil]
        norm_num
        simp only [Int.abs_eq_natAbs]
        omega
  have hfinalPos : ¬ round3 d < 0 →
      (Num.Decimal ⟨((((round3 d).natAbs / 1000) * 10 ^ (fracDigits ((round3 d).natAbs % 1000)).length +
            decToNat (fracDigits ((round3 d).natAbs % 1000)) : Nat) : Int),
        (fracDigits ((round3 d).natAbs % 1000)).length⟩) =
      Num.Decimal (canonDecimal d) := by
    intro hge
    by_cases hc100 : (round3 d).natAbs % 1000 % 100 = 0
    · have hfd : fracDigits ((round3 d).natAbs % 1000) =
          [(round3 d).natAbs % 1000 / 100 + 48] := by
        simp [fracDigits, hc100]
      have hi100 : round3 d % 100 = 0 := by omega
      rw [hfd]
      simp only [canonDecimal]
      rw [if_pos hi100]
      simp only [decToNat, List.foldl_cons, List.foldl_nil, List.length_singleton, pow_one]
      norm_num
      simp only [Int.abs_eq_natAbs]
      omega
    · by_cases hc10 : (round3 d).natAbs % 1000 % 10 = 0
      · have hfd : fracDigits ((round3 d).natAbs % 1000) =
            [(round3 d).natAbs % 1000 / 100 + 48, (round3 d).natAbs % 1000 / 10 % 10 + 48] := by
          simp [fracDigits, hc100, hc10]
        have hi100 : ¬ round3 d % 100 = 0 := by omega
        have hi10 : round3 d % 10 = 0 := by omega
        rw [hfd]
        simp only [canonDecimal]
        rw [if_neg hi100, if_pos hi10]
        simp only [decToNat, List.foldl_cons, List.foldl_nil, List.length_cons,
          List.length_singleton, List.length_nil]
        norm_num
        simp only [Int.abs_eq_natAbs]
        omega
      · have hfd : fracDigits ((round3 d).natAbs % 1000) =
            [(round3 d).natAbs % 1000 / 100 + 48, (round3 d).natAbs % 1000 / 10 % 10 + 48,
              (round3 d).natAbs % 1000 % 10 + 48] := by
          simp [fracDigits, hc100, hc10]
        have hi100 : ¬ round3 d % 100 = 0 := by omega
        have hi10 : ¬ round3 d % 10 = 0 := by omega
        rw [hfd]
        simp only [canonDecimal]
        rw [if_neg hi100, if_neg hi10]
        simp only [decToNat, List.foldl_cons, List.foldl_nil, List.length_cons,
          List.length_singleton, List.length_nil]
        norm_num
        simp only [Int.abs_eq_natAbs]
        omega
  by_cases hneg : round3 d < 0
  · rw [if_pos hneg, hA]
    simp only [List.cons_append, List.append_assoc, List.nil_append]
    simp only [parseNumber, List.head?_cons, List.tail_cons, beq_self_eq_true, if_true,
      hsplitInt.1, hsplitInt.2, List.isEmpty_cons, Option.some.injEq,
      hsplitFrac.1, hsplitFrac.2, hfne, hfl3, hdec]
    simp only [Bool.false_eq_true, if_false]
    rw [if_neg hl12]
    rw [hfinalNeg hneg]
  · rw [if_neg hneg, hA]
    simp only [List.cons_append, List.append_assoc, List.nil_append]
    simp only [parseNumber, List.head?_cons, List.tail_cons, h45,
      hsplitInt.1, hsplitInt.2, List.isEmpty_cons,
      hsplitFrac.1, hsplitFrac.2, hfne, hfl3, hdec, some_beq_some]
    simp only [h45, Bool.false_eq_true, if_false, hsplitInt.1, hsplitInt.2,
      List.head?_cons, Option.some.injEq, List.isEmpty_cons, hsplitFrac.1, hsplitFrac.2,
      hfne, hfl3, hdec]
    rw [if_neg hl12]
    simp only [some_beq_some, beq_self_eq_true, if_true, List.tail_cons, hsplitFrac.1,
      hsplitFrac.2, hfne, hfl3, hdec, Bool.false_eq_true, if_false]
    rw [hfinalPos hneg]

theorem parseStringChars_rt (s : List Nat) (hv : ∀ c ∈ s, isPrintable c = true)
    (rest : List Nat) :
    parseStringChars ((s.foldr (fun c acc => escapeChar c ++ acc) [34]) ++ rest) =
      .ok (s, rest) := by
  induction s with
  | nil =>
    simp only [List.foldr_nil, List.cons_append, List.nil_append]
    rw [parseStringChars.eq_def]
    simp
  | cons c t ih =>
    have hc : isPrintable c = true := hv c (by simp)
    have iht := ih (fun x hx => hv x (by simp [hx]))
    simp only [List.foldr_cons]
    by_cases h34 : c = 34
    · subst h34
      have he : escapeChar 34 = [92, 34] := rfl
      rw [he]
      simp only [List.cons_append, List.append_assoc]
      rw [parseStringChars.eq_def]
      simp [iht]
    · by_cases h92 : c = 92
      · subst h92
        have he : escapeChar 92 = [92, 92] := rfl
        rw [he]
        simp only [List.cons_append, List.append_assoc]
        rw [parseStringChars.eq_def]
        simp [iht]
      · have he : escapeChar c = [c] := by
          unfold escapeChar
          rw [if_neg]
          simp [h34, h92]
        rw [he]
        simp only [List.cons_append, List.nil_append]
        rw [parseStringChars.eq_def]
        simp only [h34, h92]
        simp [iht, hc, h34, h92]

theorem parseString_rt (s : List Nat) (hv : ∀ c ∈ s, isPrintable c = true)
    (rest : List Nat) :
    parseString ((34 :: s.foldr (fun c acc => escapeChar c ++ acc) [34]) ++ rest) =
      .ok (s, rest) := by
  simp [parseString, parseStringChars_rt s hv rest]

theorem parseToken_rt (t : List Nat) (hv : validTokenB t = true) (rest : List Nat)
    (hr : bareBnd rest = true) :
    parseToken (t ++ rest) = .ok (t, rest) := by
  cases t with
  | nil => simp [validTokenB] at hv
  | cons c cs =>
    simp only [validTokenB, Bool.and_eq_true] at hv
    have hsplit := takeWhile_all_append isTokenChar cs rest
      (by simpa [List.all_eq_true] using hv.2) (bareBnd_not_token rest hr)
    simp [parseToken, hv.1, hsplit.1, hsplit.2]

theorem parseKey_rt (k : Key) (hv : validKeyB k = true) (rest : List Nat)
    (hr : keyBnd rest = true) :
    parseKey (k ++ rest) = .ok (k, rest) := by
  cases k with
  | nil => simp [validKeyB] at hv
  | cons c cs =>
    simp only [validKeyB, Bool.and_eq_true] at hv
    have hsplit := takeWhile_all_append isKeyChar cs rest
      (by simpa [List.all_eq_true] using hv.2) (keyBnd_not_keychar rest hr)
    simp [parseKey, hv.1, hsplit.1, hsplit.2]

theorem parseBoolean_rt (b : Bool) (rest : List Nat) :
    parseBoolean ([63, if b then 49 else 48] ++ rest) = .ok (b, rest) := by
  cases b <;> rfl

theorem b64val_chr : ∀ k : Nat, k < 64 → b64val (b64chr k) = some k := by decide

theorem b64chr_ne58 : ∀ k : Nat, k < 64 → (b64chr k == 58) = false := by decide

theorem b64chr_ne61 : ∀ k : Nat, k < 64 → (b64chr k == 61) = false := by decide

theorem b64encode_not58 : ∀ b : List Nat, (∀ x ∈ b, x < 256) →
    ∀ c ∈ b64encode b, (c == 58) = false
  | [], _ => by simp [b64encode]
  | [a], h => by
    have ha : a < 256 := h a (by simp)
    intro c hc
    simp only [b64encode, List.mem_cons, List.not_mem_nil, or_false] at hc
    rcases hc with rfl | rfl | rfl | rfl
    · exact b64chr_ne58 _ (by omega)
    · exact b64chr_ne58 _ (by omega)
    · rfl
    · rfl
  | [a, b], h => by
    have ha : a < 256 := h a (by simp)
    have hb : b < 256 := h b (by simp)
    intro c hc
    simp only [b64encode, List.mem_cons, List.not_mem_nil, or_false] at hc
    rcases hc with rfl | rfl | rfl | rfl
    · exact b64chr_ne58 _ (by omega)
    · exact b64chr_ne58 _ (by omega)
    · exact b64chr_ne58 _ (by omega)
    · rfl
  | a :: b :: c :: rest, h => by
    have ha : a < 256 := h a (by simp)
    have hb : b < 256 := h b (by simp)
    have hc : c < 256 := h c (by simp)
    intro x hx
    simp only [b64encode, List.mem_cons] at hx
    rcases hx with rfl | rfl | rfl | rfl | hx
    · exact b64chr_ne58 _ (by omega)
    · exact b64chr_ne58 _ (by omega)
    · exact b64chr_ne58 _ (by omega)
    · exact b64chr_ne58 _ (by omega)
    · exact b64encode_not58 rest (fun y hy => h y (by simp [hy])) x hx

theorem b64decode_encode : ∀ b : List Nat, (∀ x ∈ b, x < 256) →
    b64decode (b64encode b) = .ok b
  | [], _ => rfl
  | [a], h => by
    have ha : a < 256 := h a (by simp)
    have h1 := b64val_chr (a / 4) (by omega)
    have h2 := b64val_chr (a % 4 * 16) (by omega)
    have hm : a % 4 * 16 % 16 = 0 := by omega
    simp only [b64encode, b64decode, h1, h2, hm]
    simp only [if_pos rfl, if_true]
    norm_num
    omega
  | [a, b], h => by
    have ha : a < 256 := h a (by simp)
    have hb : b < 256 := h b (by simp)
    have h1 := b64val_chr (a / 4) (by omega)
    have h2 := b64val_chr (a % 4 * 16 + b / 16) (by omega)
    have h3 := b64val_chr (b % 16 * 4) (by omega)
    have hne := b64chr_ne61 (b % 16 * 4) (by omega)
    have hm : b % 16 * 4 % 4 = 0 := by omega
    simp only [b64encode, b64decode, h1, h2, h3, hne, Bool.false_eq_true, if_false, hm]
    norm_num
    constructor
    · omega
    · omega
  | a :: b :: c :: rest, h => by
    have ha : a < 256 := h a (by simp)
    have hb : b < 256 := h b (by simp)
    have hc : c < 256 := h c (by simp)
    have h1 := b64val_chr (a / 4) (by omega)
    have h2 := b64val_chr (a % 4 * 16 + b / 16) (by omega)
    have h3 := b64val_chr (b % 16 * 4 + c / 64) (by omega)
    have h4 := b64val_chr (c % 64) (by omega)
    have hne3 := b64chr_ne61 (b % 16 * 4 + c / 64) (by omega)
    have hne4 := b64chr_ne61 (c % 64) (by omega)
    have ihr := b64decode_encode rest (fun y hy => h y (by simp [hy]))
    simp only [b64encode, b64decode, h1, h2, h3, h4, hne3, hne4, Bool.false_eq_true,
      if_false, ihr]
    norm_num
    refine ⟨by omega, by omega, by omega⟩

theorem parseByteSeq_rt (b : List Nat) (hb : ∀ x ∈ b, x < 256) (rest : List Nat) :
    parseByteSeq ((58 :: b64encode b ++ [58]) ++ rest) = .ok (b, rest) := by
  have hsplit := takeWhile_all_append (fun c => !(c == 58)) (b64encode b) (58 :: rest)
    (fun c hc => by rw [Bool.not_eq_true', b64encode_not58 b hb c hc])
    (by rfl)
  have hsa : b64encode b ++ [58] ++ rest = b64encode b ++ 58 :: rest := by
    simp
  simp only [parseByteSeq, List.cons_append, List.head?_cons, List.tail_cons,
    beq_self_eq_true, if_true, hsa, hsplit.1, hsplit.2, b64decode_encode b hb]
  rfl

theorem tokenStart_facts (c : Nat) (h : (isAlpha c || c == 42) = true) :
    isDigit c = false ∧ (c == 45) = false ∧ (c == 34) = false ∧ (c == 58) = false ∧
      (c == 63) = false ∧ bareStartB c = true := by
  simp only [isAlpha, isLcAlpha, isUcAlpha, Bool.or_eq_true, Bool.and_eq_true,
    decide_eq_true_eq, beq_iff_eq] at h
  refine ⟨?_, ?_, ?_, ?_, ?_, ?_⟩ <;>
    simp only [isDigit, bareStartB, isAlpha, isLcAlpha, isUcAlpha, Bool.or_eq_true,
      Bool.and_eq_true, decide_eq_true_eq, beq_iff_eq, Bool.and_eq_false_iff,
      Bool.or_eq_false_iff, beq_eq_false_iff_ne, ne_eq, decide_eq_false_iff_not,
      not_and, not_le] <;> omega

theorem digitStart_bareStart (c : Nat) (h : isDigit c = true) : bareStartB c = true := by
  simp only [isDigit, Bool.and_eq_true, decide_eq_true_eq] at h
  simp only [bareStartB, isDigit, isAlpha, isLcAlpha, isUcAlpha, Bool.or_eq_true,
    Bool.and_eq_true, decide_eq_true_eq, beq_iff_eq]
  omega

theorem round3_canon (d : Decimal) : round3 (canonDecimal d) = round3 d := by
  simp only [canonDecimal]
  generalize round3 d = m3
  by_cases h100 : m3 % 100 = 0
  · rw [if_pos h100]
    show round3 ⟨m3 / 100, 1⟩ = m3
    simp only [round3]
    norm_num
    omega
  · rw [if_neg h100]
    by_cases h10 : m3 % 10 = 0
    · rw [if_pos h10]
      show round3 ⟨m3 / 10, 2⟩ = m3
      simp only [round3]
      norm_num
      omega
    · rw [if_neg h10]
      show round3 ⟨m3, 3⟩ = m3
      simp only [round3]
      norm_num

theorem serializeBareItem_canon (v : BareItem) :
    serializeBareItem (canonBare v) = serializeBareItem v := by
  cases v with
  | Number n =>
    cases n with
    | Integer i => rfl
    | Decimal d =>
      simp only [canonBare, serializeBareItem, serializeDecimal, round3_canon]
  | String s => rfl
  | ByteSeq b => rfl
  | Boolean b => rfl
  | Token t => rfl

theorem beqDecimal_canon (d : Decimal) (hv : validDecimalB d = true) :
    beqDecimal (canonDecimal d) d = true := by
  simp only [validDecimalB, Bool.and_eq_true, beq_iff_eq] at hv
  have heq : d.m * 1000 = round3 d * 10 ^ d.s := hv.1
  simp only [canonDecimal]
  by_cases h100 : round3 d % 100 = 0
  · rw [if_pos h100]
    simp only [beqDecimal, beq_iff_eq, pow_one]
    have hm : (100 : Int) * (round3 d / 100) = round3 d := by omega
    have h1 : (100 : Int) * (round3 d / 100 * 10 ^ d.s) = 100 * (d.m * 10) := by
      calc (100 : Int) * (round3 d / 100 * 10 ^ d.s)
          = (100 * (round3 d / 100)) * 10 ^ d.s := by ring
        _ = round3 d * 10 ^ d.s := by rw [hm]
        _ = d.m * 1000 := heq.symm
        _ = 100 * (d.m * 10) := by ring
    exact mul_left_cancel₀ (by norm_num) h1
  · rw [if_neg h100]
    by_cases h10 : round3 d % 10 = 0
    · rw [if_pos h10]
      simp only [beqDecimal, beq_iff_eq]
      have hm : (10 : Int) * (round3 d / 10) = round3 d := by omega
      have h1 : (10 : Int) * (round3 d / 10 * 10 ^ d.s) = 10 * (d.m * 10 ^ 2) := by
        calc (10 : Int) * (round3 d / 10 * 10 ^ d.s)
            = (10 * (round3 d / 10)) * 10 ^ d.s := by ring
          _ = round3 d * 10 ^ d.s := by rw [hm]
          _ = d.m * 1000 := heq.symm
          _ = 10 * (d.m * 10 ^ 2) := by ring
      exact mul_left_cancel₀ (by norm_num) h1
    · rw [if_neg h10]
      simp only [beqDecimal, beq_iff_eq]
      calc round3 d * 10 ^ d.s = d.m * 1000 := heq.symm
        _ = d.m * 10 ^ 3 := by ring

theorem beqBare_canon (v : BareItem) (hv : validBareB v = true) :
    beqBare (canonBare v) v = true := by
  cases v with
  | Number n =>
    cases n with
    | Integer i => simp [canonBare, beqBare, beqNum]
    | Decimal d =>
      simp only [validBareB] at hv
      simp [canonBare, beqBare, beqNum, beqDecimal_canon d hv]
  | String s => simp [canonBare, beqBare]
  | ByteSeq b => simp [canonBare, beqBare]
  | Boolean b => simp [canonBare, beqBare]
  | Token t => simp [canonBare, beqBare]

theorem parseBareItem_rt (v : BareItem) (hv : validBareB v = true) :
    ∃ c s, serializeBareItem v = .ok (c :: s) ∧ bareStartB c = true ∧
      ∀ rest, bareBnd rest = true →
        parseBareItem ((c :: s) ++ rest) = .ok (canonBare v, rest) := by
  cases v with
  | Number n =>
    cases n with
    | Integer i =>
      simp only [validBareB, validIntB, decide_eq_true_eq] at hv
      by_cases hneg : i < 0
      · refine ⟨45, renderNat i.natAbs, ?_, by rfl, fun rest hr => ?_⟩
        · simp [serializeBareItem, serializeInteger, hv, hneg]
        · have hp := parseNumber_integer i hv rest hr
          rw [if_pos hneg] at hp
          simp only [List.cons_append] at hp
          simp [parseBareItem, hp, canonBare]
      · obtain ⟨c, cs, hA⟩ : ∃ c cs, renderNat i.natAbs = c :: cs := by
          cases hA : renderNat i.natAbs with
          | nil => exact absurd hA (renderNat_ne_nil _)
          | cons c cs => exact ⟨c, cs, rfl⟩
        have hcd : isDigit c = true := renderNat_all_digit _ c (by rw [hA]; simp)
        refine ⟨c, cs, ?_, digitStart_bareStart c hcd, fun rest hr => ?_⟩
        · simp [serializeBareItem, serializeInteger, hv, hneg, hA]
        · have hp := parseNumber_integer i hv rest hr
          rw [if_neg hneg, hA] at hp
          simp only [List.cons_append] at hp
          simp [parseBareItem, hcd, hp, canonBare]
    | Decimal d =>
      simp only [validBareB, validDecimalB, Bool.and_eq_true, decide_eq_true_eq] at hv
      have hb := hv.2
      have hp0 := parseNumber_decimal d hb
      by_cases hneg : round3 d < 0
      · refine ⟨45, renderNat ((round3 d).natAbs / 1000) ++
            46 :: fracDigits ((round3 d).natAbs % 1000), ?_, by rfl, fun rest hr => ?_⟩
        · simp [serializeBareItem, serializeDecimal, hb, hneg]
        · have hp := hp0 rest hr
          rw [if_pos hneg] at hp
          simp only [List.cons_append, List.append_assoc, List.nil_append] at hp ⊢
          simp [parseBareItem, hp, canonBare]
      · obtain ⟨c, cs, hA⟩ : ∃ c cs, renderNat ((round3 d).natAbs / 1000) = c :: cs := by
          cases hA : renderNat ((round3 d).natAbs / 1000) with
          | nil => exact absurd hA (renderNat_ne_nil _)
          | cons c cs => exact ⟨c, cs, rfl⟩
        have hcd : isDigit c = true := renderNat_all_digit _ c (by rw [hA]; simp)
        refine ⟨c, cs ++ 46 :: fracDigits ((round3 d).natAbs % 1000), ?_,
          digitStart_bareStart c hcd, fun rest hr => ?_⟩
        · simp [serializeBareItem, serializeDecimal, hb, hneg, hA]
        · have hp := hp0 rest hr
          rw [if_neg hneg, hA] at hp
          simp only [List.nil_append, List.cons_append, List.append_assoc] at hp ⊢
          simp [parseBareItem, hcd, hp, canonBare]
  | String s =>
    simp only [validBareB, validStringB] at hv
    refine ⟨34, s.foldr (fun c acc => escapeChar c ++ acc) [34], ?_, by rfl,
      fun rest hr => ?_⟩
    · simp [serializeBareItem, serializeString, hv]
    · have hp := parseString_rt s (by simpa [List.all_eq_true] using hv) rest
      simp only [List.cons_append] at hp
      have hd : isDigit 34 = false := rfl
      simp [parseBareItem, hd, hp, canonBare]
  | ByteSeq b =>
    simp only [validBareB, validByteSeqB] at hv
    refine ⟨58, b64encode b ++ [58], ?_, by rfl, fun rest hr => ?_⟩
    · simp [serializeBareItem, serializeByteSeq]
    · have hp := parseByteSeq_rt b (by simpa [List.all_eq_true] using hv) rest
      simp only [List.cons_append, List.append_assoc, List.nil_append] at hp
      have hd : isDigit 58 = false := rfl
      simp [parseBareItem, hd, hp, canonBare]
  | Boolean b =>
    refine ⟨63, [if b then 49 else 48], ?_, by rfl, fun rest hr => ?_⟩
    · simp [serializeBareItem, serializeBool]
    · have hp := parseBoolean_rt b rest
      simp only [List.cons_append, List.nil_append] at hp
      have hd : isDigit 63 = false := rfl
      simp [parseBareItem, hd, hp, canonBare]
  | Token t =>
    cases t with
    | nil => simp [validBareB, validTokenB] at hv
    | cons c cs =>
      simp only [validBareB, validTokenB, Bool.and_eq_true] at hv
      have hf := tokenStart_facts c hv.1
      refine ⟨c, cs, ?_, hf.2.2.2.2.2, fun rest hr => ?_⟩
      · simp only [serializeBareItem, serializeToken]
        rw [if_pos]
        simp [hv.1, hv.2]
      · have hp := parseToken_rt (c :: cs) (by simp [validTokenB, hv.1, hv.2]) rest hr
        simp only [List.cons_append] at hp
        simp [parseBareItem, hf.1, hf.2.1, hf.2.2.1, hf.2.2.2.1, hf.2.2.2.2.1,
          hv.1, hp, canonBare]

theorem serializeKey_ok (k : Key) (hv : validKeyB k = true) : serializeKey k = .ok k := by
  cases k with
  | nil => simp [validKeyB] at hv
  | cons c cs =>
    simp only [validKeyB] at hv
    simp [serializeKey, hv]

theorem validKey_head_not_sp (k : Key) (hv : validKeyB k = true) :
    headNot isSP k = true := by
  cases k with
  | nil => rfl
  | cons c cs =>
    simp only [validKeyB, Bool.and_eq_true, Bool.or_eq_true, isLcAlpha,
      Bool.and_eq_true, decide_eq_true_eq, beq_iff_eq] at hv
    simp only [headNot, isSP, Bool.not_eq_true', beq_eq_false_iff_ne, ne_eq]
    omega

theorem canonBare_eq_true_iff (v : BareItem) :
    (canonBare v = .Boolean true) ↔ v = .Boolean true := by
  cases v with
  | Number n => cases n <;> simp [canonBare]
  | String s => simp [canonBare]
  | ByteSeq b => simp [canonBare]
  | Boolean b => simp [canonBare]
  | Token t => simp [canonBare]

theorem mapContains_append {α : Type} (a b : List (Key × α)) (j : Key) :
    mapContains (a ++ b) j = (mapContains a j || mapContains b j) := by
  simp [mapContains, List.any_append]

theorem mapInsert_of_not_contains {α : Type} (m : List (Key × α)) (k : Key) (v : α)
    (h : mapContains m k = false) : mapInsert m k v = m ++ [(k, v)] := by
  unfold mapInsert
  rw [if_neg]
  rw [mapContains] at h
  simp [h]

theorem headNot_append (p : Nat → Bool) (l r : List Nat) (h : headNot p l = true)
    (hne : l ≠ []) : headNot p (l ++ r) = true := by
  cases l with
  | nil => exact absurd rfl hne
  | cons c t => exact h

theorem keyBeq_comm (a b : Key) : (a == b) = (b == a) := by
  by_cases h : a = b
  · simp [h]
  · simp [h, Ne.symm h]

theorem mapContains_singleton {α : Type} (k j : Key) (x : α) :
    mapContains [(k, x)] j = (k == j) := by
  simp [mapContains]

theorem paramsTail_key (S rest : List Nat) (h : S = [] ∨ S.head? = some 59)
    (hr : entryBnd rest = true) : keyBnd (S ++ rest) = true := by
  rcases h with rfl | hh
  · simpa using entryBnd_to_key rest hr
  · cases S with
    | nil => simp at hh
    | cons a as =>
      simp only [List.head?_cons, Option.some.injEq] at hh
      subst hh
      rfl

theorem paramsTail_bare (S rest : List Nat) (h : S = [] ∨ S.head? = some 59)
    (hr : entryBnd rest = true) : bareBnd (S ++ rest) = true := by
  rcases h with rfl | hh
  · simpa using entryBnd_to_bare rest hr
  · cases S with
    | nil => simp at hh
    | cons a as =>
      simp only [List.head?_cons, Option.some.injEq] at hh
      subst hh
      rfl

theorem paramsTail_not61 (S rest : List Nat) (h : S = [] ∨ S.head? = some 59)
    (hr : entryBnd rest = true) : ((S ++ rest).head? == some 61) = false := by
  rcases h with rfl | hh
  · simpa using entryBnd_not61 rest hr
  · cases S with
    | nil => simp at hh
    | cons a as =>
      simp only [List.head?_cons, Option.some.injEq] at hh
      subst hh
      rfl

theorem parseParameters_rt : ∀ ps : Parameters, validParamsB ps = true →
    ∃ S, serializeParameters ps = .ok S ∧
      serializeParameters (canonParams ps) = .ok S ∧
      (S = [] ∨ S.head? = some 59) ∧
      ∀ (acc : Parameters) (rest : List Nat) (fuel : Nat),
        mapDisjoint acc ps = true → S.length + rest.length < fuel →
        entryBnd rest = true →
        parseParameters fuel acc (S ++ rest) = .ok (acc ++ canonParams ps, rest) := by
  intro ps
  induction ps with
  | nil =>
    intro hv
    refine ⟨[], rfl, rfl, Or.inl rfl, fun acc rest fuel hd hf hr => ?_⟩
    cases fuel with
    | zero => omega
    | succ f =>
      simp only [List.nil_append, parseParameters, entryBnd_not59 rest hr,
        Bool.false_eq_true, if_false]
      simp [canonParams]
  | cons p t ih =>
    obtain ⟨k, v⟩ := p
    intro hv
    simp only [validParamsB, keysNodupB, List.all_cons, Bool.and_eq_true] at hv
    have hnE : t.all (fun p => !(p.1 == k)) = true := hv.1.1
    have hvk : validKeyB k = true := hv.2.1.1
    have hvv : validBareB v = true := hv.2.1.2
    have hvt : validParamsB t = true := by
      simp [validParamsB, hv.1.2, hv.2.2]
    have hk1 : 1 ≤ k.length := by
      cases k with
      | nil => simp [validKeyB] at hvk
      | cons a b => simp
    obtain ⟨S', hS'1, hS'2, hS'h, hS'p⟩ := ih hvt
    have hcanonCons : canonParams ((k, v) :: t) = (k, canonBare v) :: canonParams t := by
      simp [canonParams]
    by_cases hbt : v = BareItem.Boolean true
    · have hser : serializeParameters ((k, v) :: t) = .ok (59 :: (k ++ S')) := by
        simp [serializeParameters, serializeKey_ok k hvk, hbt, hS'1, Bind.bind, Except.bind, Pure.pure, Except.pure]
      have hserC : serializeParameters (canonParams ((k, v) :: t)) = .ok (59 :: (k ++ S')) := by
        rw [hcanonCons]
        simp [serializeParameters, serializeKey_ok k hvk, hbt, hS'2, Bind.bind, Except.bind, Pure.pure, Except.pure,
          canonBare]
      refine ⟨59 :: (k ++ S'), hser, hserC, Or.inr rfl, fun acc rest fuel hd hf hr => ?_⟩
      simp only [mapDisjoint, List.all_cons, Bool.and_eq_true, Bool.not_eq_true'] at hd
      cases fuel with
      | zero => simp at hf
      | succ f =>
        have hkey := parseKey_rt k hvk (S' ++ rest) (paramsTail_key S' rest hS'h hr)
        simp only [List.cons_append, List.append_assoc] at hkey ⊢
        simp only [parseParameters, List.head?_cons, beq_self_eq_true, if_true,
          List.tail_cons]
        rw [skipSP_noop _ (headNot_append isSP k _ (validKey_head_not_sp k hvk)
          (by cases k with | nil => simp at hk1 | cons a b => simp))]
        rw [hkey]
        simp only [paramsTail_not61 S' rest hS'h hr, Bool.false_eq_true, if_false]
        rw [mapInsert_of_not_contains acc k _ hd.1]
        have hdisj2 : mapDisjoint (acc ++ [(k, BareItem.Boolean true)]) t = true := by
          simp only [mapDisjoint, List.all_eq_true]
          intro q hq
          have h1 : mapContains acc q.1 = false := by
            have := List.all_eq_true.mp hd.2 q hq
            simpa using this
          have h2 : (q.1 == k) = false := by
            have := List.all_eq_true.mp hnE q hq
            simpa using this
          simp [mapContains_append, h1, mapContains_singleton, keyBeq_comm k q.1, h2]
        have := hS'p (acc ++ [(k, BareItem.Boolean true)]) rest f hdisj2
          (by simp at hf ⊢; omega) hr
        rw [this, hcanonCons]
        simp [hbt, canonBare]
    · have hbtc : ¬ canonBare v = BareItem.Boolean true := by
        rw [canonBare_eq_true_iff]
        exact hbt
      obtain ⟨cB, sB, hserB, hstartB, hparseB⟩ := parseBareItem_rt v hvv
      have hser : serializeParameters ((k, v) :: t) =
          .ok (59 :: (k ++ 61 :: cB :: (sB ++ S'))) := by
        simp [serializeParameters, serializeKey_ok k hvk, hbt, hserB, hS'1, Bind.bind,
          Except.bind, Pure.pure, Except.pure]
      have hserC : serializeParameters (canonParams ((k, v) :: t)) =
          .ok (59 :: (k ++ 61 :: cB :: (sB ++ S'))) := by
        rw [hcanonCons]
        have : serializeBareItem (canonBare v) = .ok (cB :: sB) := by
          rw [serializeBareItem_canon v, hserB]
        simp [serializeParameters, serializeKey_ok k hvk, hbtc, this, hS'2, Bind.bind,
          Except.bind, Pure.pure, Except.pure]
      refine ⟨59 :: (k ++ 61 :: cB :: (sB ++ S')), hser, hserC, Or.inr rfl,
        fun acc rest fuel hd hf hr => ?_⟩
      simp only [mapDisjoint, List.all_cons, Bool.and_eq_true, Bool.not_eq_true'] at hd
      cases fuel with
      | zero => simp at hf
      | succ f =>
        have hkey := parseKey_rt k hvk (61 :: cB :: (sB ++ S' ++ rest)) rfl
        have hbare := hparseB (S' ++ rest) (paramsTail_bare S' rest hS'h hr)
        simp only [List.cons_append, List.append_assoc] at hkey hbare ⊢
        simp only [parseParameters, List.head?_cons, beq_self_eq_true, if_true,
          List.tail_cons]
        rw [skipSP_noop _ (headNot_append isSP k _ (validKey_head_not_sp k hvk)
          (by cases k with | nil => simp at hk1 | cons a b => simp))]
        rw [hkey]
        simp only [List.head?_cons, beq_self_eq_true, if_true, List.tail_cons]
        rw [hbare]
        change parseParameters f (mapInsert acc k (canonBare v)) (S' ++ rest) = _
        rw [mapInsert_of_not_contains acc k _ hd.1]
        have hdisj2 : mapDisjoint (acc ++ [(k, canonBare v)]) t = true := by
          simp only [mapDisjoint, List.all_eq_true]
          intro q hq
          have h1 : mapContains acc q.1 = false := by
            have := List.all_eq_true.mp hd.2 q hq
            simpa using this
          have h2 : (q.1 == k) = false := by
            have := List.all_eq_true.mp hnE q hq
            simpa using this
          simp [mapContains_append, h1, mapContains_singleton, keyBeq_comm k q.1, h2]
        have := hS'p (acc ++ [(k, canonBare v)]) rest f hdisj2
          (by simp at hf ⊢; omega) hr
        rw [this, hcanonCons]
        simp

theorem bareStart_ne41 (c : Nat) (h : bareStartB c = true) : (c == 41) = false := by
  simp only [bareStartB, isDigit, isAlpha, isLcAlpha, isUcAlpha, Bool.or_eq_true,
    Bool.and_eq_true, decide_eq_true_eq, beq_iff_eq] at h
  simp only [beq_eq_false_iff_ne, ne_eq]
  omega

theorem mapDisjoint_nil {α β : Type} (ps : List (Key × β)) :
    mapDisjoint ([] : List (Key × α)) ps = true := by
  simp [mapDisjoint, mapContains]

theorem parseItemBody_rt (it : Item) (hv : validItemB it = true) :
    ∃ c s, serializeItem it = .ok (c :: s) ∧ bareStartB c = true ∧
      serializeItem (canonItem it) = .ok (c :: s) ∧
      ∀ (rest : List Nat) (fuel : Nat), (c :: s).length + rest.length ≤ fuel →
        entryBnd rest = true →
        parseItemBody fuel ((c :: s) ++ rest) = .ok (canonItem it, rest) := by
  obtain ⟨b, ps⟩ := it
  simp only [validItemB, Bool.and_eq_true] at hv
  obtain ⟨cB, sB, hserB, hstart, hparseB⟩ := parseBareItem_rt b hv.1
  obtain ⟨SP, hSP1, hSP2, hSPh, hSPp⟩ := parseParameters_rt ps hv.2
  have hser : serializeItem ⟨b, ps⟩ = .ok (cB :: (sB ++ SP)) := by
    simp [serializeItem, hserB, hSP1, Bind.bind, Except.bind, Pure.pure, Except.pure]
  have hserC : serializeItem (canonItem ⟨b, ps⟩) = .ok (cB :: (sB ++ SP)) := by
    have hc : serializeBareItem (canonBare b) = .ok (cB :: sB) := by
      rw [serializeBareItem_canon b, hserB]
    simp [canonItem, serializeItem, hc, hSP2, Bind.bind, Except.bind, Pure.pure,
      Except.pure]
  refine ⟨cB, sB ++ SP, hser, hstart, hserC, fun rest fuel hf hr => ?_⟩
  have hbare := hparseB (SP ++ rest) (paramsTail_bare SP rest hSPh hr)
  simp only [List.cons_append, List.append_assoc] at hbare ⊢
  simp only [parseItemBody]
  rw [hbare]
  have hps := hSPp [] rest fuel (mapDisjoint_nil ps) (by simp at hf ⊢; omega) hr
  change (match parseParameters fuel [] (SP ++ rest) with
    | Except.error e => Except.error e
    | Except.ok (ps2, r2) => Except.ok (Item.with_params (canonBare b) ps2, r2)) = _
  rw [hps]
  simp [canonItem, Item.with_params]

theorem parseInnerItems_rt : ∀ (its : List Item), (∀ it ∈ its, validItemB it = true) →
    ∃ S, serializeInnerItems its = .ok S ∧
      serializeInnerItems (its.map canonItem) = .ok S ∧
      ∀ (acc : List Item) (rest : List Nat) (fuel : Nat) (lead : List Nat),
        (lead = [] ∨ lead = [32]) →
        (lead ++ S ++ 41 :: rest).length < fuel →
        parseInnerItems fuel acc ((lead ++ S) ++ 41 :: rest) =
          .ok (acc.reverse ++ its.map canonItem, rest) := by
  intro its
  induction its with
  | nil =>
    intro hv
    refine ⟨[], rfl, rfl, fun acc rest fuel lead hl hf => ?_⟩
    cases fuel with
    | zero => simp at hf
    | succ f =>
      rcases hl with rfl | rfl
      · simp [parseInnerItems, skipSP, List.dropWhile_cons, isSP]
      · simp [parseInnerItems, skipSP, List.dropWhile_cons, isSP]
  | cons it more ih =>
    intro hv
    have hvi : validItemB it = true := hv it (by simp)
    have hvm : ∀ x ∈ more, validItemB x = true := fun x hx => hv x (by simp [hx])
    obtain ⟨cI, sI, hserI, hstartI, hserIC, hparseI⟩ := parseItemBody_rt it hvi
    obtain ⟨S', hS'1, hS'2, hS'p⟩ := ih hvm
    cases more with
    | nil =>
      have hS'nil : S' = [] := by
        simp only [serializeInnerItems, Except.ok.injEq] at hS'1
        exact hS'1.symm
      subst hS'nil
      refine ⟨cI :: sI, hserI, hserIC, fun acc rest fuel lead hl hf => ?_⟩
      cases fuel with
      | zero => simp at hf
      | succ f =>
        have hfS : ((cI :: sI) ++ 41 :: rest).length ≤ f := by
          rcases hl with rfl | rfl <;>
            simp only [List.length_append, List.length_cons, List.length_nil,
              List.nil_append, List.singleton_append] at hf ⊢ <;> omega
        have hstep : parseInnerItems (f + 1) acc ((cI :: sI) ++ 41 :: rest) =
            .ok (acc.reverse ++ [canonItem it], rest) := by
          have hpi := hparseI (41 :: rest) f
            (by simp only [List.length_append, List.length_cons, List.length_nil] at hfS ⊢; omega) (by rfl)
          simp only [List.cons_append, List.append_assoc] at hpi ⊢
          simp only [parseInnerItems]
          rw [skipSP_noop _ (by simp [headNot, bareStart_not_sp cI hstartI])]
          simp only [List.head?_cons, some_beq_some, bareStart_ne41 cI hstartI,
            Bool.false_eq_true, if_false, List.isEmpty_cons]
          rw [hpi]
          change (if (41 :: rest).head? == some 32 || (41 :: rest).head? == some 41
            then parseInnerItems f (canonItem it :: acc) (41 :: rest)
            else Except.error "parse_inner_list: expected space or closing parenthesis") = _
          simp only [List.head?_cons, some_beq_some]
          norm_num
          have hrec := hS'p (canonItem it :: acc) rest f [] (Or.inl rfl)
            (by simp only [List.length_append, List.length_cons, List.length_nil] at hfS ⊢; omega)
          simp only [List.nil_append] at hrec
          rw [hrec]
          simp
        rcases hl with rfl | rfl
        · simpa using hstep
        · have hone : parseInnerItems (f + 1) acc (([32] ++ (cI :: sI)) ++ 41 :: rest) =
              parseInnerItems (f + 1) acc ((cI :: sI) ++ 41 :: rest) := rfl
          rw [hone, hstep]
          simp
    | cons m ms =>
      have hser : serializeInnerItems (it :: m :: ms) = .ok (cI :: (sI ++ 32 :: S')) := by
        simp [serializeInnerItems, hserI, hS'1, Bind.bind, Except.bind, Pure.pure,
          Except.pure]
      have hserC : serializeInnerItems ((it :: m :: ms).map canonItem) =
          .ok (cI :: (sI ++ 32 :: S')) := by
        have h2 := hS'2
        simp only [List.map_cons] at h2 ⊢
        simp [serializeInnerItems, hserIC, h2, Bind.bind, Except.bind, Pure.pure,
          Except.pure]
      refine ⟨cI :: (sI ++ 32 :: S'), hser, hserC, fun acc rest fuel lead hl hf => ?_⟩
      cases fuel with
      | zero => simp at hf
      | succ f =>
        have hfS : ((cI :: (sI ++ 32 :: S')) ++ 41 :: rest).length ≤ f := by
          rcases hl with rfl | rfl <;>
            simp only [List.length_append, List.length_cons, List.length_nil,
              List.nil_append, List.singleton_append] at hf ⊢ <;> omega
        have hstep : parseInnerItems (f + 1) acc ((cI :: (sI ++ 32 :: S')) ++ 41 :: rest) =
            .ok (acc.reverse ++ (it :: m :: ms).map canonItem, rest) := by
          have hpi := hparseI (32 :: (S' ++ 41 :: rest)) f
            (by simp only [List.length_append, List.length_cons, List.length_nil] at hfS ⊢; omega) (by rfl)
          have hrec := hS'p (canonItem it :: acc) rest f [32] (Or.inr rfl)
            (by simp only [List.length_append, List.length_cons, List.length_nil, List.singleton_append] at hfS ⊢; omega)
          simp only [List.cons_append, List.singleton_append, List.nil_append,
            List.append_assoc] at hrec hpi ⊢
          simp only [parseInnerItems]
          rw [skipSP_noop _ (by simp [headNot, bareStart_not_sp cI hstartI])]
          simp only [List.head?_cons, some_beq_some, bareStart_ne41 cI hstartI,
            Bool.false_eq_true, if_false, List.isEmpty_cons]
          rw [hpi]
          change (if (32 :: (S' ++ 41 :: rest)).head? == some 32 ||
              (32 :: (S' ++ 41 :: rest)).head? == some 41
            then parseInnerItems f (canonItem it :: acc) (32 :: (S' ++ 41 :: rest))
            else Except.error "parse_inner_list: expected space or closing parenthesis") = _
          simp only [List.head?_cons, some_beq_some]
          norm_num
          rw [hrec]
          simp
        rcases hl with rfl | rfl
        · simpa using hstep
        · have hone : parseInnerItems (f + 1) acc
              (([32] ++ (cI :: (sI ++ 32 :: S'))) ++ 41 :: rest) =
              parseInnerItems (f + 1) acc ((cI :: (sI ++ 32 :: S')) ++ 41 :: rest) := rfl
          rw [hone]
          exact hstep

theorem parseInnerList_rt (il : InnerList) (hv : validInnerListB il = true) :
    ∃ S, serializeInnerList il = .ok (40 :: S) ∧
      serializeInnerList (canonInnerList il) = .ok (40 :: S) ∧
      ∀ (rest : List Nat) (fuel : Nat),
        (40 :: S).length + rest.length ≤ fuel → entryBnd rest = true →
        parseInnerList fuel ((40 :: S) ++ rest) = .ok (canonInnerList il, rest) := by
  obtain ⟨its, ps⟩ := il
  simp only [validInnerListB, Bool.and_eq_true] at hv
  have hvits : ∀ x ∈ its, validItemB x = true := by
    have h1 := hv.1
    simp only [List.all_eq_true] at h1
    exact h1
  obtain ⟨SI, hSI1, hSI2, hSIp⟩ := parseInnerItems_rt its hvits
  obtain ⟨SP, hSP1, hSP2, hSPh, hSPp⟩ := parseParameters_rt ps hv.2
  refine ⟨SI ++ 41 :: SP, ?_, ?_, ?_⟩
  · simp [serializeInnerList, hSI1, hSP1, Bind.bind, Except.bind, Pure.pure, Except.pure]
  · simp [serializeInnerList, canonInnerList, hSI2, hSP2, Bind.bind, Except.bind,
      Pure.pure, Except.pure]
  · intro rest fuel hf hb
    have hpi := hSIp [] (SP ++ rest) fuel [] (Or.inl rfl)
      (by simp only [List.length_append, List.length_cons, List.length_nil] at hf ⊢; omega)
    have hpp := hSPp [] rest fuel (mapDisjoint_nil _)
      (by simp only [List.length_append, List.length_cons, List.length_nil] at hf ⊢; omega) hb
    simp only [List.nil_append, List.reverse_nil, List.cons_append, List.append_assoc] at hpi hpp ⊢
    simp only [parseInnerList, List.head?_cons, some_beq_some, List.tail_cons]
    norm_num
    rw [hpi]
    change (match parseParameters fuel [] (SP ++ rest) with
      | Except.error e => Except.error e
      | Except.ok (ps2, r3) =>
        Except.ok (InnerList.with_params (its.map canonItem) ps2, r3)) = _
    rw [hpp]
    simp [InnerList.with_params, canonInnerList]

theorem parseListEntry_rt (e : ListEntry) (hv : validEntryB e = true) :
    ∃ c s, serializeListEntry e = .ok (c :: s) ∧
      serializeListEntry (canonEntry e) = .ok (c :: s) ∧
      (c = 40 ∨ bareStartB c = true) ∧
      ∀ (rest : List Nat) (fuel : Nat),
        (c :: s).length + rest.length ≤ fuel → entryBnd rest = true →
        parseListEntry fuel ((c :: s) ++ rest) = .ok (canonEntry e, rest) := by
  cases e with
  | Item it =>
    obtain ⟨cI, sI, hserI, hstartI, hserIC, hparseI⟩ := parseItemBody_rt it hv
    refine ⟨cI, sI, hserI, hserIC, Or.inr hstartI, fun rest fuel hf hb => ?_⟩
    have hpi := hparseI rest fuel (by simpa using hf) hb
    simp only [List.cons_append] at hpi ⊢
    simp only [parseListEntry, List.head?_cons, some_beq_some, bareStart_ne40 cI hstartI,
      Bool.false_eq_true, if_false]
    rw [hpi]
    simp [canonEntry]
  | InnerList il =>
    obtain ⟨S, hser, hserC, hp⟩ := parseInnerList_rt il hv
    refine ⟨40, S, hser, hserC, Or.inl rfl, fun rest fuel hf hb => ?_⟩
    have hpi := hp rest fuel hf hb
    simp only [List.cons_append] at hpi ⊢
    simp only [parseListEntry, List.head?_cons, some_beq_some]
    norm_num
    rw [hpi]
    simp [canonEntry]

theorem entryHead_not_ows (c : Nat) (h : c = 40 ∨ bareStartB c = true) :
    isOWS c = false := by
  rcases h with rfl | h
  · rfl
  · exact bareStart_not_ows c h

theorem parseListMembers_rt : ∀ (l : SfList), validListB l = true → l ≠ [] →
    ∃ S, serializeList l = .ok S ∧ serializeList (canonList l) = .ok S ∧
      S ≠ [] ∧ headNot isOWS S = true ∧
      ∀ (acc : SfList) (fuel : Nat), S.length < fuel →
        parseListMembers fuel acc S = .ok (acc ++ canonList l) := by
  intro l
  induction l with
  | nil => exact fun _ h => absurd rfl h
  | cons e tail ih =>
    intro hv _
    simp only [validListB, List.all_cons, Bool.and_eq_true] at hv
    have hve : validEntryB e = true := hv.1
    have hvt : validListB tail = true := by simp [validListB, hv.2]
    obtain ⟨c, s, hs1, hs2, hc, hp⟩ := parseListEntry_rt e hve
    cases tail with
    | nil =>
      refine ⟨c :: s, hs1, ?_, by simp, ?_, ?_⟩
      · simp [canonList, serializeList, hs2]
      · simp [headNot, entryHead_not_ows c hc]
      · intro acc fuel hf
        cases fuel with
        | zero => simp at hf
        | succ f =>
          have hp0 := hp [] f (by simp at hf ⊢; omega) rfl
          simp only [List.append_nil] at hp0
          simp only [parseListMembers]
          rw [hp0]
          simp [skipOWS, canonList]
    | cons m ms =>
      obtain ⟨S', hS'1, hS'2, hS'ne, hS'h, hS'p⟩ := ih hvt (by simp)
      refine ⟨(c :: s) ++ 44 :: 32 :: S', ?_, ?_, by simp, ?_, ?_⟩
      · simp [serializeList, hs1, hS'1, Bind.bind, Except.bind, Pure.pure, Except.pure]
      · have h2 := hS'2
        simp only [canonList, List.map_cons] at h2 ⊢
        simp [serializeList, hs2, h2, Bind.bind, Except.bind, Pure.pure, Except.pure]
      · simp [headNot, entryHead_not_ows c hc]
      · intro acc fuel hf
        cases fuel with
        | zero => simp at hf
        | succ f =>
          have hp0 := hp (44 :: 32 :: S') f
            (by simp only [List.length_append, List.length_cons, List.length_nil] at hf ⊢; omega)
            rfl
          simp only [List.cons_append, List.append_assoc] at hp0 ⊢
          simp only [parseListMembers]
          rw [hp0]
          have hsk : skipOWS (44 :: 32 :: S') = 44 :: 32 :: S' := rfl
          change (let r1 := skipOWS (44 :: 32 :: S');
            if r1.isEmpty then Except.ok (acc ++ [canonEntry e])
            else if r1.head? == some 44 then
              let r3 := skipOWS r1.tail
              if r3.isEmpty then Except.error "parse_list: trailing comma"
              else parseListMembers f (acc ++ [canonEntry e]) r3
            else Except.error "parse_list: trailing characters after member") = _
          rw [hsk]
          simp only [List.isEmpty_cons, List.head?_cons, some_beq_some, List.tail_cons]
          norm_num
          have hsk2 : skipOWS (32 :: S') = S' := by
            rw [show skipOWS (32 :: S') = skipOWS S' from rfl, skipOWS_noop S' hS'h]
          rw [hsk2]
          rw [if_neg hS'ne]
          have hrec := hS'p (acc ++ [canonEntry e]) f
            (by simp only [List.length_append, List.length_cons, List.length_nil] at hf ⊢; omega)
          rw [hrec]
          simp [canonList]

theorem validKey_head_not_ows (k : Key) (hv : validKeyB k = true) :
    headNot isOWS k = true := by
  cases k with
  | nil => rfl
  | cons c cs =>
    simp only [validKeyB, Bool.and_eq_true, Bool.or_eq_true, isLcAlpha,
      Bool.and_eq_true, decide_eq_true_eq, beq_iff_eq] at hv
    simp only [headNot, isOWS, Bool.not_eq_true', Bool.or_eq_false_iff,
      beq_eq_false_iff_ne, ne_eq]
    omega

theorem validKey_ne_nil (k : Key) (hv : validKeyB k = true) : k ≠ [] := by
  cases k with
  | nil => simp [validKeyB] at hv
  | cons c cs => simp

theorem parseDictMember_rt (k : Key) (e : ListEntry) (hk : validKeyB k = true)
    (he : validEntryB e = true) :
    ∃ S, serializeDictMember k e = .ok S ∧
      serializeDictMember k (canonEntry e) = .ok S ∧
      S ≠ [] ∧ headNot isOWS S = true ∧
      ∀ (rest : List Nat) (fuel : Nat), S.length + rest.length ≤ fuel →
        entryBnd rest = true →
        parseDictMember fuel (S ++ rest) = .ok ((k, canonEntry e), rest) := by
  have hkey := parseKey_rt k hk
  have hknil := validKey_ne_nil k hk
  have hkh := validKey_head_not_ows k hk
  cases e with
  | Item it =>
    obtain ⟨b, ps⟩ := it
    by_cases hb : b = BareItem.Boolean true
    · subst hb
      simp only [validEntryB, validItemB, Bool.and_eq_true] at he
      obtain ⟨SP, hSP1, hSP2, hSPh, hSPp⟩ := parseParameters_rt ps he.2
      refine ⟨k ++ SP, ?_, ?_, by simp [hknil], headNot_append _ _ _ hkh hknil, ?_⟩
      · simp [serializeDictMember, serializeKey_ok k hk, hSP1, Bind.bind, Except.bind,
          Pure.pure, Except.pure]
      · simp only [canonEntry, canonItem, canonBare]
        simp [serializeDictMember, serializeKey_ok k hk, hSP2, Bind.bind, Except.bind,
          Pure.pure, Except.pure]
      · intro rest fuel hf hb2
        have hkr := hkey (SP ++ rest) (paramsTail_key SP rest hSPh hb2)
        have hpp := hSPp [] rest fuel (mapDisjoint_nil _)
          (by simp only [List.length_append] at hf ⊢
              cases k with
              | nil => exact absurd rfl hknil
              | cons a b => simp only [List.length_cons] at hf; omega) hb2
        simp only [List.append_assoc] at hkr ⊢
        simp only [parseDictMember]
        rw [hkr]
        change (if (SP ++ rest).head? == some 61 then _ else
          match parseParameters fuel [] (SP ++ rest) with
          | Except.error e => Except.error e
          | Except.ok (ps2, r2) =>
            Except.ok ((k, ListEntry.Item (Item.with_params (.Boolean true) ps2)), r2)) = _
        rw [paramsTail_not61 SP rest hSPh hb2]
        simp only [Bool.false_eq_true, if_false]
        rw [hpp]
        simp [canonEntry, canonItem, canonBare, Item.with_params]
    · obtain ⟨c, s, hs1, hs2, hc, hp⟩ := parseListEntry_rt (.Item ⟨b, ps⟩) he
      simp only [serializeListEntry] at hs1 hs2
      have hbc : canonBare b ≠ BareItem.Boolean true := fun h =>
        hb ((canonBare_eq_true_iff b).mp h)
      refine ⟨k ++ 61 :: c :: s, ?_, ?_, by simp [hknil],
        headNot_append _ _ _ hkh hknil, ?_⟩
      · simp [serializeDictMember, serializeKey_ok k hk, hs1, if_neg hb, Bind.bind,
          Except.bind, Pure.pure, Except.pure]
      · simp only [canonEntry] at hs2 ⊢
        simp only [canonItem] at hs2
        simp [serializeDictMember, serializeKey_ok k hk, canonItem, hs2, if_neg hbc,
          Bind.bind, Except.bind, Pure.pure, Except.pure]
      · intro rest fuel hf hb2
        have hkr := hkey (61 :: ((c :: s) ++ rest)) rfl
        have hpe := hp rest fuel
          (by simp only [List.length_append, List.length_cons] at hf ⊢; omega) hb2
        simp only [List.cons_append, List.append_assoc] at hkr hpe ⊢
        simp only [parseDictMember]
        rw [hkr]
        change (if (61 :: (c :: (s ++ rest))).head? == some 61 then
          match parseListEntry fuel (61 :: (c :: (s ++ rest))).tail with
          | Except.error e => Except.error e
          | Except.ok (e2, r3) => Except.ok ((k, e2), r3)
          else _) = _
        simp only [List.head?_cons, some_beq_some, List.tail_cons]
        norm_num
        rw [hpe]
  | InnerList il =>
    obtain ⟨c, s, hs1, hs2, hc, hp⟩ := parseListEntry_rt (.InnerList il) he
    simp only [serializeListEntry] at hs1 hs2
    refine ⟨k ++ 61 :: c :: s, ?_, ?_, by simp [hknil],
      headNot_append _ _ _ hkh hknil, ?_⟩
    · simp [serializeDictMember, serializeKey_ok k hk, hs1, Bind.bind,
        Except.bind, Pure.pure, Except.pure]
    · simp only [canonEntry] at hs2 ⊢
      simp [serializeDictMember, serializeKey_ok k hk, hs2, Bind.bind,
        Except.bind, Pure.pure, Except.pure]
    · intro rest fuel hf hb2
      have hkr := hkey (61 :: ((c :: s) ++ rest)) rfl
      have hpe := hp rest fuel
        (by simp only [List.length_append, List.length_cons] at hf ⊢; omega) hb2
      simp only [List.cons_append, List.append_assoc] at hkr hpe ⊢
      simp only [parseDictMember]
      rw [hkr]
      change (if (61 :: (c :: (s ++ rest))).head? == some 61 then
        match parseListEntry fuel (61 :: (c :: (s ++ rest))).tail with
        | Except.error e => Except.error e
        | Except.ok (e2, r3) => Except.ok ((k, e2), r3)
        else _) = _
      simp only [List.head?_cons, some_beq_some, List.tail_cons]
      norm_num
      rw [hpe]

theorem parseDictMembers_rt : ∀ (d : Dictionary), validDictB d = true → d ≠ [] →
    ∃ S, serializeDictionary d = .ok S ∧ serializeDictionary (canonDict d) = .ok S ∧
      S ≠ [] ∧ headNot isOWS S = true ∧
      ∀ (acc : Dictionary) (fuel : Nat), mapDisjoint acc d = true → S.length < fuel →
        parseDictMembers fuel acc S = .ok (acc ++ canonDict d) := by
  intro d
  induction d with
  | nil => exact fun _ h => absurd rfl h
  | cons p tail ih =>
    obtain ⟨k, e⟩ := p
    intro hv _
    simp only [validDictB, keysNodupB, List.all_cons, Bool.and_eq_true] at hv
    obtain ⟨⟨hnE, hndt⟩, ⟨hvke, hvtl⟩⟩ := hv
    have hvk : validKeyB k = true := hvke.1
    have hve : validEntryB e = true := hvke.2
    have hvt : validDictB tail = true := by
      simp [validDictB, hndt, hvtl]
    obtain ⟨SM, hm1, hm2, hmne, hmh, hmp⟩ := parseDictMember_rt k e hvk hve
    have hcanonCons : canonDict ((k, e) :: tail) = (k, canonEntry e) :: canonDict tail := by
      simp [canonDict]
    cases tail with
    | nil =>
      refine ⟨SM, hm1, ?_, hmne, hmh, ?_⟩
      · rw [hcanonCons]
        simpa [serializeDictionary, canonDict] using hm2
      · intro acc fuel hd hf
        have hd1 : mapContains acc k = false := by
          simp only [mapDisjoint, List.all_cons, List.all_nil, Bool.and_true,
            Bool.not_eq_true'] at hd
          exact hd
        cases fuel with
        | zero => simp at hf
        | succ f =>
          have hp0 := hmp [] f (by simp at hf ⊢; omega) rfl
          simp only [List.append_nil] at hp0
          simp only [parseDictMembers]
          rw [hp0]
          change (let r1 := skipOWS [];
            if r1.isEmpty then Except.ok (mapInsert acc k (canonEntry e))
            else if r1.head? == some 44 then
              let r3 := skipOWS r1.tail
              if r3.isEmpty then Except.error "parse_dictionary: trailing comma"
              else parseDictMembers f (mapInsert acc k (canonEntry e)) r3
            else Except.error "parse_dictionary: trailing characters after member") = _
          rw [mapInsert_of_not_contains acc k _ hd1]
          simp [skipOWS, canonDict]
    | cons q qs =>
      obtain ⟨S', hS'1, hS'2, hS'ne, hS'h, hS'p⟩ := ih hvt (by simp)
      refine ⟨SM ++ 44 :: 32 :: S', ?_, ?_, by simp [hmne], ?_, ?_⟩
      · cases hSM : SM with
        | nil => exact absurd hSM hmne
        | cons a b =>
          rw [hSM] at hm1
          simp [serializeDictionary, hm1, hS'1, Bind.bind, Except.bind, Pure.pure,
            Except.pure]
      · rw [hcanonCons]
        have h2 := hS'2
        simp only [canonDict, List.map_cons] at h2 ⊢
        simp [serializeDictionary, hm2, h2, Bind.bind, Except.bind, Pure.pure,
          Except.pure]
      · exact headNot_append _ _ _ hmh hmne
      · intro acc fuel hd hf
        have hdk : mapContains acc k = false := by
          simp only [mapDisjoint, List.all_cons, Bool.and_eq_true, Bool.not_eq_true'] at hd
          exact hd.1
        have hdall : (q :: qs).all (fun p => !(mapContains acc p.1)) = true := by
          simp only [mapDisjoint, List.all_cons, Bool.and_eq_true, Bool.not_eq_true'] at hd ⊢
          exact ⟨hd.2.1, hd.2.2⟩
        cases fuel with
        | zero => simp at hf
        | succ f =>
          have hp0 := hmp (44 :: 32 :: S') f
            (by simp only [List.length_append, List.length_cons, List.length_nil] at hf ⊢; omega)
            rfl
          simp only [List.cons_append, List.append_assoc] at hp0 ⊢
          simp only [parseDictMembers]
          rw [hp0]
          change (let r1 := skipOWS (44 :: 32 :: S');
            if r1.isEmpty then Except.ok (mapInsert acc k (canonEntry e))
            else if r1.head? == some 44 then
              let r3 := skipOWS r1.tail
              if r3.isEmpty then Except.error "parse_dictionary: trailing comma"
              else parseDictMembers f (mapInsert acc k (canonEntry e)) r3
            else Except.error "parse_dictionary: trailing characters after member") = _
          rw [show skipOWS (44 :: 32 :: S') = 44 :: 32 :: S' from rfl]
          simp only [List.isEmpty_cons, List.head?_cons, some_beq_some, List.tail_cons]
          norm_num
          rw [show skipOWS (32 :: S') = skipOWS S' from rfl, skipOWS_noop S' hS'h,
            if_neg hS'ne]
          rw [mapInsert_of_not_contains acc k _ hdk]
          have hdisj2 : mapDisjoint (acc ++ [(k, canonEntry e)]) (q :: qs) = true := by
            simp only [mapDisjoint, List.all_eq_true]
            intro r hr
            have h1 : mapContains acc r.1 = false := by
              have := List.all_eq_true.mp hdall r hr
              simpa using this
            have h2 : (r.1 == k) = false := by
              have := List.all_eq_true.mp hnE r hr
              simpa using this
            simp [mapContains_append, h1, mapContains_singleton, keyBeq_comm k r.1, h2]
          have hrec := hS'p (acc ++ [(k, canonEntry e)]) f hdisj2
            (by simp only [List.length_append, List.length_cons, List.length_nil] at hf ⊢; omega)
          rw [hrec, hcanonCons]
          simp

theorem mapLookup_replace {α : Type} (m : List (Key × α)) (k : Key) (v : α)
    (h : mapContains m k = true) :
    mapLookup (m.map (fun p => if p.1 == k then (k, v) else p)) k = some v := by
  induction m with
  | nil => simp [mapContains] at h
  | cons p t ih =>
    by_cases hpk : p.1 == k
    · simp [mapLookup, List.find?, hpk]
    · have ht : mapContains t k = true := by
        simpa [mapContains, hpk] using h
      simpa [mapLookup, List.find?, hpk] using ih ht

theorem mapLookup_append {α : Type} (m : List (Key × α)) (k : Key) (v : α)
    (h : mapContains m k = false) :
    mapLookup (m ++ [(k, v)]) k = some v := by
  induction m with
  | nil => simp [mapLookup, List.find?]
  | cons p t ih =>
    simp only [mapContains, List.any_cons, Bool.or_eq_false_iff] at h
    obtain ⟨hpk, ht⟩ := h
    simpa [mapLookup, List.find?, hpk] using ih ht

theorem mapInsert_lookup {α : Type} (m : List (Key × α)) (k : Key) (v : α) :
    mapLookup (mapInsert m k v) k = some v := by
  unfold mapInsert
  by_cases h : m.any (fun p => p.1 == k)
  · rw [if_pos h]; exact mapLookup_replace m k v h
  · rw [if_neg h]
    exact mapLookup_append m k v (by rw [mapContains]; exact Bool.eq_false_iff.mpr h)

theorem mapInsert_keys {α : Type} (m : List (Key × α)) (k : Key) (v : α)
    (h : mapContains m k = true) :
    (mapInsert m k v).map Prod.fst = m.map Prod.fst := by
  unfold mapInsert
  rw [if_pos (by simpa [mapContains] using h), List.map_map]
  apply List.map_congr_left
  intro p hp
  by_cases hpk : p.1 == k
  · simp only [Function.comp_apply, hpk, if_pos]
    exact (eq_of_beq hpk).symm
  · simp [Function.comp, hpk]

theorem mapInsert_length_pos {α : Type} (m : List (Key × α)) (k : Key) (v : α) :
    0 < (mapInsert m k v).length := by
  unfold mapInsert
  split
  · rename_i h
    cases m with
    | nil => simp at h
    | cons p t => simp
  · simp

theorem parseListMembers_len :
    ∀ (fuel : Nat) (acc : SfList) (l : List Nat) (res : SfList),
      parseListMembers fuel acc l = .ok res → acc.length < res.length := by
  intro fuel
  induction fuel with
  | zero => intro acc l res h; exact absurd h (by simp [parseListMembers])
  | succ fuel ih =>
    intro acc l res h
    simp only [parseListMembers] at h
    split at h
    · exact absurd h (by simp)
    · split at h
      · simp only [Except.ok.injEq] at h
        subst h; simp
      · split at h
        · split at h
          · exact absurd h (by simp)
          · have := ih _ _ _ h
            simp at this
            omega
        · exact absurd h (by simp)

theorem parseDictMembers_len :
    ∀ (fuel : Nat) (acc : Dictionary) (l : List Nat) (res : Dictionary),
      parseDictMembers fuel acc l = .ok res → 0 < res.length := by
  intro fuel
  induction fuel with
  | zero => intro acc l res h; exact absurd h (by simp [parseDictMembers])
  | succ fuel ih =>
    intro acc l res h
    simp only [parseDictMembers] at h
    split at h
    · exact absurd h (by simp)
    · split at h
      · simp only [Except.ok.injEq] at h
        subst h
        exact mapInsert_length_pos _ _ _
      · split at h
        · split at h
          · exact absurd h (by simp)
          · exact ih _ _ _ h
        · exact absurd h (by simp)

/-! ## Claim theorems -/

/-- C1: round trip — for every syntactically valid value already in
canonical form (an `Item`, a `List`, or a `Dictionary`), serialization
succeeds, parsing the produced string with the matching entry point
returns exactly the original value, and re-serializing the parsed value
yields the same string as the first serialization. -/
theorem sfv_round_trip :
    (∀ it : Item, validItemB it = true → canonItem it = it →
      ∃ s, serializeItem it = .ok s ∧ Parser.parse_item s = .ok it ∧
        ∀ v, Parser.parse_item s = .ok v → serializeItem v = .ok s) ∧
    (∀ l : SfList, validListB l = true → canonList l = l →
      ∃ s, serializeList l = .ok s ∧ Parser.parse_list s = .ok l ∧
        ∀ v, Parser.parse_list s = .ok v → serializeList v = .ok s) ∧
    (∀ d : Dictionary, validDictB d = true → canonDict d = d →
      ∃ s, serializeDictionary d = .ok s ∧ Parser.parse_dictionary s = .ok d ∧
        ∀ v, Parser.parse_dictionary s = .ok v → serializeDictionary v = .ok s) := by
  refine ⟨?_, ?_, ?_⟩
  · intro it hv hcan
    obtain ⟨c, s0, hser, hstart, hserC, hp⟩ := parseItemBody_rt it hv
    have hsk : skipOWS (c :: s0) = c :: s0 :=
      skipOWS_noop _ (by simp [headNot, bareStart_not_ows c hstart])
    have hp0 := hp [] ((c :: s0).length + 1) (by simp) rfl
    simp only [List.append_nil] at hp0
    have hparse : Parser.parse_item (c :: s0) = .ok it := by
      simp only [Parser.parse_item]
      rw [hsk, hp0]
      simp [skipOWS, hcan]
    refine ⟨c :: s0, hser, hparse, fun v hv2 => ?_⟩
    rw [hparse, Except.ok.injEq] at hv2
    rw [hv2] at hser
    exact hser
  · intro l hv hcan
    cases l with
    | nil =>
      refine ⟨[], rfl, rfl, fun v hv2 => ?_⟩
      rw [show Parser.parse_list [] = (.ok [] : SFVResult SfList) from rfl,
        Except.ok.injEq] at hv2
      subst hv2
      rfl
    | cons e t =>
      obtain ⟨S, hS1, hS2, hSne, hSh, hSp⟩ := parseListMembers_rt (e :: t) hv (by simp)
      have hie : S.isEmpty = false := by
        cases S with
        | nil => exact absurd rfl hSne
        | cons a b => rfl
      have hparse : Parser.parse_list S = .ok (e :: t) := by
        simp only [Parser.parse_list]
        rw [skipOWS_noop S hSh, hie]
        simp only [Bool.false_eq_true, if_false]
        have := hSp [] (S.length + 1) (by omega)
        rw [this]
        simp [hcan]
      refine ⟨S, hS1, hparse, fun v hv2 => ?_⟩
      rw [hparse, Except.ok.injEq] at hv2
      rw [hv2] at hS1
      exact hS1
  · intro d hv hcan
    cases d with
    | nil =>
      refine ⟨[], rfl, rfl, fun v hv2 => ?_⟩
      rw [show Parser.parse_dictionary [] = (.ok [] : SFVResult Dictionary) from rfl,
        Except.ok.injEq] at hv2
      subst hv2
      rfl
    | cons p t =>
      obtain ⟨S, hS1, hS2, hSne, hSh, hSp⟩ := parseDictMembers_rt (p :: t) hv (by simp)
      have hie : S.isEmpty = false := by
        cases S with
        | nil => exact absurd rfl hSne
        | cons a b => rfl
      have hparse : Parser.parse_dictionary S = .ok (p :: t) := by
        simp only [Parser.parse_dictionary]
        rw [skipOWS_noop S hSh, hie]
        simp only [Bool.false_eq_true, if_false]
        have := hSp [] (S.length + 1) (mapDisjoint_nil _) (by omega)
        rw [this]
        simp [hcan]
      refine ⟨S, hS1, hparse, fun v hv2 => ?_⟩
      rw [hparse, Except.ok.injEq] at hv2
      rw [hv2] at hS1
      exact hS1

theorem sfv_round_trip_witness :
    (∃ s, serializeItem ⟨.Number (.Integer 1), []⟩ = .ok s ∧
      Parser.parse_item s = .ok ⟨.Number (.Integer 1), []⟩ ∧
      ∀ v, Parser.parse_item s = .ok v → serializeItem v = .ok s) ∧
    (∃ s, serializeList [.Item ⟨.Token (strBytes "tok"), []⟩,
        .InnerList ⟨[⟨.Number (.Integer 99), [(strBytes "key", .Boolean false)]⟩],
          [(strBytes "bar", .Boolean true)]⟩] = .ok s ∧
      Parser.parse_list s = .ok [.Item ⟨.Token (strBytes "tok"), []⟩,
        .InnerList ⟨[⟨.Number (.Integer 99), [(strBytes "key", .Boolean false)]⟩],
          [(strBytes "bar", .Boolean true)]⟩] ∧
      ∀ v, Parser.parse_list s = .ok v → serializeList v = .ok s) ∧
    (∃ s, serializeDictionary [(strBytes "key1", .Item ⟨.String (strBytes "apple"), []⟩),
        (strBytes "key2", .Item ⟨.Boolean true, []⟩)] = .ok s ∧
      Parser.parse_dictionary s = .ok [(strBytes "key1",
        .Item ⟨.String (strBytes "apple"), []⟩),
        (strBytes "key2", .Item ⟨.Boolean true, []⟩)] ∧
      ∀ v, Parser.parse_dictionary s = .ok v → serializeDictionary v = .ok s) :=
  ⟨sfv_round_trip.1 ⟨.Number (.Integer 1), []⟩ (by rfl) (by rfl),
   sfv_round_trip.2.1 [.Item ⟨.Token (strBytes "tok"), []⟩,
      .InnerList ⟨[⟨.Number (.Integer 99), [(strBytes "key", .Boolean false)]⟩],
        [(strBytes "bar", .Boolean true)]⟩] (by rfl) (by rfl),
   sfv_round_trip.2.2 [(strBytes "key1", .Item ⟨.String (strBytes "apple"), []⟩),
      (strBytes "key2", .Item ⟨.Boolean true, []⟩)] (by rfl) (by rfl)⟩

/-- C2: for every byte sequence (of any content or size), the total
function `parse_dictionary` returns either a dictionary or an error.
Termination and in-bounds reading hold by construction of the shallow
embedding: the parser is a total function consuming a list. -/
theorem sfv_parse_dictionary_total (bytes : List Nat) :
    (∃ d, Parser.parse_dictionary bytes = .ok d) ∨
    (∃ e, Parser.parse_dictionary bytes = .error e) := by
  cases h : Parser.parse_dictionary bytes with
  | ok d => exact Or.inl ⟨d, rfl⟩
  | error e => exact Or.inr ⟨e, rfl⟩

/-- C3: decimal serialization rounds the stored value to three
fractional digits with round-half-to-even, then emits the minimum
number of fractional digits (at least one); the crate-doc example
`99;key=13.457` holds, ties round to the even last digit, and a rounded
value whose integer part needs thirteen digits fails while twelve
digits succeed. -/
theorem sfv_decimal_rounding_serialization :
    serializeItem (Item.with_params (BareItem.ofInt 99)
        [(strBytes "key", BareItem.ofDecimal ⟨1345655, 5⟩)]) =
      .ok (strBytes "99;key=13.457") ∧
    serializeBareItem (BareItem.ofDecimal ⟨12345, 4⟩) = .ok (strBytes "1.234") ∧
    serializeBareItem (BareItem.ofDecimal ⟨12335, 4⟩) = .ok (strBytes "1.234") ∧
    serializeBareItem (BareItem.ofDecimal ⟨5, 0⟩) = .ok (strBytes "5.0") ∧
    serializeBareItem (BareItem.ofDecimal ⟨5030, 3⟩) = .ok (strBytes "5.03") ∧
    serializeBareItem (BareItem.ofDecimal ⟨9999999999999, 0⟩) =
      .error "serialize_decimal: integer component is out of range" ∧
    serializeBareItem (BareItem.ofDecimal ⟨999999999999, 0⟩) =
      .ok (strBytes "999999999999.0") :=
  ⟨rfl, rfl, rfl, rfl, rfl, rfl, rfl⟩

/-- C4: the parser enforces the numeric digit bounds exactly — fifteen
integer digits parse, sixteen fail, a decimal with thirteen integer
digits fails, one with twelve succeeds, and a dot with zero following
digits or more than three following digits is a hard failure. -/
theorem sfv_numeric_parse_bounds :
    Parser.parse_item (strBytes "999999999999999") =
      .ok (Item.new (BareItem.ofInt 999999999999999)) ∧
    Parser.parse_item (strBytes "1000000000000000") =
      .error "parse_number: too many digits" ∧
    Parser.parse_item (strBytes "1111111111111.0") =
      .error "parse_number: too many digits before dot" ∧
    Parser.parse_item (strBytes "111111111111.0") =
      .ok (Item.new (BareItem.ofDecimal ⟨1111111111110, 1⟩)) ∧
    Parser.parse_item (strBytes "1.") = .error "parse_number: trailing dot" ∧
    Parser.parse_item (strBytes "1.2345") =
      .error "parse_number: too many digits after dot" :=
  ⟨rfl, rfl, rfl, rfl, rfl, rfl⟩

/-- C8: the serializer produces the canonical form of the two crate-doc
examples — one space after each member comma, no space around `;` or
`=`, and `Boolean(true)` values emitted as the bare key. -/
theorem sfv_canonical_serialization_examples :
    serializeList [ListEntry.ofItem (Item.new (.Token (strBytes "tok"))),
        ListEntry.ofInnerList (InnerList.with_params
          [Item.with_params (BareItem.ofInt 99) [(strBytes "key", .Boolean false)],
           Item.new (.String (strBytes "foo"))]
          [(strBytes "bar", .Boolean true)])] =
      .ok (strBytes "tok, (99;key=?0 \"foo\");bar") ∧
    serializeDictionary (mapInsert (mapInsert (mapInsert []
        (strBytes "key1") (ListEntry.ofItem (Item.new (.String (strBytes "apple")))))
        (strBytes "key2") (ListEntry.ofItem (Item.new (.Boolean true))))
        (strBytes "key3") (ListEntry.ofItem (Item.new (.Boolean false)))) =
      .ok (strBytes "key1=\"apple\", key2, key3=?0") :=
  ⟨rfl, rfl⟩

/-- C5: dictionary and parameter insertion keeps keys unique with
update-in-place semantics — re-inserting an existing key replaces its
value without changing the key list — and parsing `a=1, a=2` yields
exactly one entry for `a` with value Integer 2 at the position where
`a` was first introduced (shown also with an intervening key `b`). -/
theorem sfv_dictionary_update_in_place :
    (∀ (α : Type) (m : List (Key × α)) (k : Key) (v : α), mapContains m k = true →
      (mapInsert m k v).map Prod.fst = m.map Prod.fst ∧
        mapLookup (mapInsert m k v) k = some v) ∧
    Parser.parse_dictionary (strBytes "a=1, a=2") =
      .ok [(strBytes "a", ListEntry.Item (Item.new (BareItem.ofInt 2)))] ∧
    Parser.parse_dictionary (strBytes "a=1, b=2, a=3") =
      .ok [(strBytes "a", ListEntry.Item (Item.new (BareItem.ofInt 3))),
           (strBytes "b", ListEntry.Item (Item.new (BareItem.ofInt 2)))] :=
  ⟨fun _ m k v h => ⟨mapInsert_keys m k v h, mapInsert_lookup m k v⟩, rfl, rfl⟩

/-- C5 witness: instantiating the update-in-place property at a
concrete one-entry map. -/
theorem sfv_dictionary_update_in_place_witness :
    (mapInsert [([97], BareItem.Boolean false)] [97] (BareItem.Boolean true)).map Prod.fst =
      [[97]] ∧
    mapLookup (mapInsert [([97], BareItem.Boolean false)] [97] (BareItem.Boolean true)) [97] =
      some (BareItem.Boolean true) :=
  sfv_dictionary_update_in_place.1 BareItem
    [([97], BareItem.Boolean false)] [97] (BareItem.Boolean true) (by decide)

/-- C6: parsing is all-or-nothing — a failing chunk makes `parse_more`
return the error without appending any member (the target collection is
unchanged), and an entirely-whitespace chunk appends nothing and
succeeds. -/
theorem sfv_parse_more_all_or_nothing :
    (∀ (ex : SfList) (bytes : List Nat) (e : String),
      Parser.parse_list bytes = .error e → ParseMore.list ex bytes = .error e) ∧
    (∀ (ex : SfList) (bytes : List Nat), bytes.all isOWS = true →
      ParseMore.list ex bytes = .ok ex) ∧
    (∀ (ex : Dictionary) (bytes : List Nat) (e : String),
      Parser.parse_dictionary bytes = .error e → ParseMore.dictionary ex bytes = .error e) ∧
    (∀ (ex : Dictionary) (bytes : List Nat), bytes.all isOWS = true →
      ParseMore.dictionary ex bytes = .ok ex) := by
  refine ⟨fun ex bytes e h => ?_, fun ex bytes h => ?_, fun ex bytes e h => ?_,
    fun ex bytes h => ?_⟩
  · simp [ParseMore.list, h]
  · have hnil : skipOWS bytes = [] := (skipOWS_eq_nil_iff bytes).mpr h
    simp [ParseMore.list, Parser.parse_list, hnil]
  · simp [ParseMore.dictionary, h]
  · have hnil : skipOWS bytes = [] := (skipOWS_eq_nil_iff bytes).mpr h
    simp [ParseMore.dictionary, Parser.parse_dictionary, hnil]

/-- C6 witness: a failing chunk propagates its error through
`parse_more` on a nonempty list, and a whitespace chunk leaves a
nonempty dictionary unchanged. -/
theorem sfv_parse_more_all_or_nothing_witness :
    ParseMore.list [ListEntry.Item (Item.new (BareItem.Boolean true))] (strBytes "$") =
      .error "parse_bare_item: unrecognized character" ∧
    ParseMore.dictionary [([97], ListEntry.Item (Item.new (BareItem.Boolean true)))]
        (strBytes " \t ") =
      .ok [([97], ListEntry.Item (Item.new (BareItem.Boolean true)))] :=
  ⟨sfv_parse_more_all_or_nothing.1 _ _ _ rfl,
   sfv_parse_more_all_or_nothing.2.2.2 _ _ (by decide)⟩

/-- C7: a `parse_list` or `parse_dictionary` input yields an empty
collection exactly when it is empty or consists only of spaces and
tabs, and a trailing comma with no following member fails. -/
theorem sfv_empty_input_parses_empty :
    (∀ bytes : List Nat,
      Parser.parse_list bytes = .ok [] ↔ bytes.all isOWS = true) ∧
    (∀ bytes : List Nat,
      Parser.parse_dictionary bytes = .ok [] ↔ bytes.all isOWS = true) ∧
    Parser.parse_list (strBytes "a, ") = .error "parse_list: trailing comma" ∧
    Parser.parse_dictionary (strBytes "a=1,") =
      .error "parse_dictionary: trailing comma" := by
  refine ⟨fun bytes => ⟨fun h => ?_, fun h => ?_⟩, fun bytes => ⟨fun h => ?_, fun h => ?_⟩,
    rfl, rfl⟩
  · cases hsk : skipOWS bytes with
    | nil => exact (skipOWS_eq_nil_iff bytes).mp hsk
    | cons c r =>
      exfalso
      have hrun : parseListMembers ((c :: r).length + 1) [] (c :: r) = .ok [] := by
        simpa [Parser.parse_list, hsk] using h
      simpa using parseListMembers_len _ _ _ _ hrun
  · have hnil : skipOWS bytes = [] := (skipOWS_eq_nil_iff bytes).mpr h
    simp [Parser.parse_list, hnil]
  · cases hsk : skipOWS bytes with
    | nil => exact (skipOWS_eq_nil_iff bytes).mp hsk
    | cons c r =>
      exfalso
      have hrun : parseDictMembers ((c :: r).length + 1) [] (c :: r) = .ok [] := by
        simpa [Parser.parse_dictionary, hsk] using h
      simpa using parseDictMembers_len _ _ _ _ hrun
  · have hnil : skipOWS bytes = [] := (skipOWS_eq_nil_iff bytes).mpr h
    simp [Parser.parse_dictionary, hnil]

/-- C7 witness: instantiating the emptiness equivalence at the empty
input and at a tab-space input. -/
theorem sfv_empty_input_parses_empty_witness :
    Parser.parse_list ([] : List Nat) = .ok [] ∧
    Parser.parse_dictionary [32, 9, 32] = .ok [] :=
  ⟨(sfv_empty_input_parses_empty.1 []).mpr (by decide),
   (sfv_empty_input_parses_empty.2.1 [32, 9, 32]).mpr (by decide)⟩

/-- C9: the value-model constructors and conversions are total
functions performing no validation — every integer, in particular every
magnitude above the serializable bound, yields a constructible
`BareItem` — and the serializer is the enforcement point, failing
cleanly on every out-of-range integer. -/
theorem sfv_constructors_total_serializer_enforces :
    (∀ (b : BareItem) (p : Parameters),
      Item.new b = ⟨b, []⟩ ∧ Item.with_params b p = ⟨b, p⟩) ∧
    (∀ (its : List Item) (p : Parameters),
      InnerList.new its = ⟨its, []⟩ ∧ InnerList.with_params its p = ⟨its, p⟩) ∧
    (∀ n : Int, BareItem.ofInt n = .Number (.Integer n)) ∧
    (∀ d : Decimal, BareItem.ofDecimal d = .Number (.Decimal d)) ∧
    (∀ it : Item, ListEntry.ofItem it = .Item it) ∧
    (∀ il : InnerList, ListEntry.ofInnerList il = .InnerList il) ∧
    (∀ n : Int, 999999999999999 < n.natAbs →
      serializeItem (Item.new (BareItem.ofInt n)) =
        .error "serialize_integer: integer is out of range") := by
  refine ⟨fun b p => ⟨rfl, rfl⟩, fun its p => ⟨rfl, rfl⟩, fun n => rfl, fun d => rfl,
    fun it => rfl, fun il => rfl, fun n hn => ?_⟩
  have hb : (n.natAbs ≤ 999999999999999) = False := by
    simp only [eq_iff_iff, iff_false, not_le]
    exact hn
  simp [serializeItem, Item.new, BareItem.ofInt, serializeBareItem, serializeInteger,
    serializeParameters, hb, Bind.bind, Except.bind]

/-- C9 witness: an integer one above the bound is constructible and its
serialization fails with the range error. -/
theorem sfv_constructors_total_serializer_enforces_witness :
    serializeItem (Item.new (BareItem.ofInt 1000000000000000)) =
      .error "serialize_integer: integer is out of range" :=
  sfv_constructors_total_serializer_enforces.2.2.2.2.2.2 1000000000000000 (by decide)

/-- C10: every failure is a bare string message (the result type is
`Except String`, modelling `Result<T, &'static str>`), and two distinct
failure causes are told apart only by their message text. -/
theorem sfv_errors_are_static_strings :
    (∀ bytes : List Nat, (∃ d, Parser.parse_dictionary bytes = .ok d) ∨
      (∃ msg : String, Parser.parse_dictionary bytes = .error msg)) ∧
    Parser.parse_item (strBytes "?2") = .error "parse_boolean: invalid boolean" ∧
    Parser.parse_item (strBytes "\"a") = .error "parse_string: unterminated string" ∧
    ("parse_boolean: invalid boolean" : String) ≠ "parse_string: unterminated string" := by
  refine ⟨fun bytes => ?_, rfl, rfl, by decide⟩
  cases h : Parser.parse_dictionary bytes with
  | ok d => exact Or.inl ⟨d, rfl⟩
  | error e => exact Or.inr ⟨e, rfl⟩

end SFV
